import Mathlib

/-
Verification of the temporal-HTN core (src/temporal_htn/htn.py and
src/temporal_htn/lcp_converter.py) against its natural-language
specification.  The Python data model is shallowly embedded: frozen
dataclasses become structures, Python `==` dispatch (including the
reflected-operand priority rule for subclasses) becomes an explicit
Boolean function, Python `set` membership (hash bucket plus `==`)
becomes a Boolean membership test over lists under a collision-free
abstraction of the generated dataclass `__hash__`, and raising code
returns `Except`.  Float delays are embedded as rationals; every
theorem below is independent of the float/rational distinction except
where explicitly noted.
-/

/-- Python values that can populate the `value` field of a typed object:
`str | int | bool` as annotated on `HtnTypedObject`. -/
inductive PyVal where
  | pstr (s : String)
  | pint (n : Int)
  | pbool (b : Bool)
deriving DecidableEq

/-- Numeric view used by Python `==` and `hash`, which identify
`True` with `1` and `False` with `0`. -/
def PyVal.toIntQ : PyVal → Option Int
  | .pint n => some n
  | .pbool b => some (if b then 1 else 0)
  | .pstr _ => none

/-- Python equality on leaf values: numeric comparison between
`int`/`bool`, string comparison between `str`, `False` otherwise. -/
def pyValEq (a b : PyVal) : Bool :=
  match a.toIntQ, b.toIntQ with
  | some m, some n => m == n
  | _, _ =>
    match a, b with
    | .pstr s, .pstr t => s == t
    | _, _ => false

/-- Python `str()` of a leaf value (`str(True) = "True"`). -/
def pyValStr : PyVal → String
  | .pstr s => s
  | .pint n => toString n
  | .pbool b => if b then "True" else "False"

theorem pyValEq_refl (v : PyVal) : pyValEq v v = true := by
  cases v <;> simp [pyValEq, PyVal.toIntQ]

/-- `HtnType`: a name plus an optional parent; Python `__eq__` compares
name and parent recursively, which coincides with structural equality. -/
inductive HtnType where
  | mk (name : String) (parent : Option HtnType)

def HtnType.decEq : (a b : HtnType) → Decidable (a = b)
  | .mk n p, .mk m q =>
    match String.decEq n m with
    | isFalse h => isFalse (by simp [HtnType.mk.injEq]; intro hn; exact absurd hn h)
    | isTrue h1 =>
      match p, q with
      | none, none => isTrue (by rw [h1])
      | some a, some b =>
        match HtnType.decEq a b with
        | isTrue h2 => isTrue (by rw [h1, h2])
        | isFalse h2 =>
          isFalse (by simp [HtnType.mk.injEq]; intro _ hp; exact absurd hp h2)
      | none, some _ => isFalse (by simp [HtnType.mk.injEq])
      | some _, none => isFalse (by simp [HtnType.mk.injEq])

instance : DecidableEq HtnType := HtnType.decEq

instance : BEq HtnType := instBEqOfDecidableEq

def HtnType.name : HtnType → String
  | .mk n _ => n

def HtnType.parent : HtnType → Option HtnType
  | .mk _ p => p

def htnTimepointType : HtnType := .mk "__timepoint__" none
def htnBoolean : HtnType := .mk "__boolean__" none
def htnInteger : HtnType := .mk "__integer__" none

/-- `HTN_TIME_SCALE = 10`. -/
def htnTimeScale : Rat := 10
/-- `HTN_EPSILON = 1 / HTN_TIME_SCALE`. -/
def htnEpsilon : Rat := 1 / htnTimeScale

/-- The Python class of a typed object.  `obj` is a bare
`HtnTypedObject`, `tp` a bare `HtnTimepoint` (both are documented as
abstract but are instantiated in the source, e.g. by the interval
factory), and the remaining three are the concrete leaf classes. -/
inductive PyClass where
  | obj | var | cst | tp | varTp | cstTp
deriving DecidableEq

/-- A typed object of the Python hierarchy.  The `delay` field exists
only on timepoint classes in Python; for the other classes it is carried
with its default `0` and never read. -/
structure HtnTypedObject where
  cls : PyClass := .obj
  value : PyVal
  tpe : HtnType
  delay : Rat := 0
deriving DecidableEq

/-- `isinstance(x, HtnTimepoint)`. -/
def isTimepointCls : PyClass → Bool
  | .tp | .varTp | .cstTp => true
  | _ => false

/-- `isinstance(x, HtnVariable)`. -/
def isVariableCls : PyClass → Bool
  | .var | .varTp => true
  | _ => false

/-- `isinstance(x, HtnConstant)`. -/
def isConstantCls : PyClass → Bool
  | .cst | .cstTp => true
  | _ => false

/-- Proper-subclass relation between the typed-object classes, used by
Python's rich-comparison dispatch (the right operand's `__eq__` is tried
first when its class is a proper subclass of the left operand's). -/
def properSubclass (sub sup : PyClass) : Bool :=
  match sup, sub with
  | .obj, .var => true
  | .obj, .cst => true
  | .obj, .tp => true
  | .obj, .varTp => true
  | .obj, .cstTp => true
  | .var, .varTp => true
  | .cst, .cstTp => true
  | .tp, .varTp => true
  | .tp, .cstTp => true
  | _, _ => false

/-- `HtnTypedObject.__eq__`: compares `value` and `tpe` only. -/
def typedObjEqBody (self other : HtnTypedObject) : Bool :=
  pyValEq other.value self.value && (other.tpe == self.tpe)

/-- The `__eq__` method selected by MRO for each class.  `none` models
`NotImplemented` (returned by the dataclass-generated `__eq__` of
`HtnVariableTimepoint` / `HtnConstantTimepoint` on a class mismatch);
`HtnVariable` and `HtnConstant` delegate to `HtnTypedObject.__eq__`,
and `HtnTimepoint.__eq__` additionally requires the other side to be a
timepoint with the same delay. -/
def eqMethod (c : PyClass) (self other : HtnTypedObject) : Option Bool :=
  match c with
  | .obj | .var | .cst => some (typedObjEqBody self other)
  | .tp =>
      some (typedObjEqBody self other && isTimepointCls other.cls
        && (other.delay == self.delay))
  | .varTp =>
      if other.cls == PyClass.varTp then
        some (pyValEq self.value other.value && (self.tpe == other.tpe)
          && (self.delay == other.delay))
      else none
  | .cstTp =>
      if other.cls == PyClass.cstTp then
        some (pyValEq self.value other.value && (self.tpe == other.tpe)
          && (self.delay == other.delay))
      else none

/-- Python `a == b` on typed objects, with CPython's dispatch: the right
operand's method runs first when its class is a proper subclass of the
left's; `NotImplemented` falls through to the other method and finally
to identity (modelled as structural equality). -/
def pyEq (a b : HtnTypedObject) : Bool :=
  if properSubclass b.cls a.cls then
    ((eqMethod b.cls b a).getD (((eqMethod a.cls a b).getD (a == b))))
  else
    ((eqMethod a.cls a b).getD (((eqMethod b.cls b a).getD (a == b))))

/-- Collision-free abstraction of the dataclass-generated `__hash__`:
hash of the field tuple, which is `(value, tpe)` for non-timepoints and
`(value, tpe, delay)` for timepoints; `hash(True) = hash(1)`. -/
def pyHashEq (a b : HtnTypedObject) : Bool :=
  pyValEq a.value b.value && (a.tpe == b.tpe)
    && (isTimepointCls a.cls == isTimepointCls b.cls)
    && (!isTimepointCls a.cls || (a.delay == b.delay))

theorem typedObjEqBody_refl (x : HtnTypedObject) : typedObjEqBody x x = true := by
  simp [typedObjEqBody, pyValEq_refl]

theorem eqMethod_self (x : HtnTypedObject) (h : x.cls = c) :
    eqMethod c x x = some true := by
  cases c <;>
    simp_all [eqMethod, typedObjEqBody_refl, isTimepointCls, pyValEq_refl]

theorem properSubclass_irrefl (c : PyClass) : properSubclass c c = false := by
  cases c <;> rfl

theorem pyEq_refl (x : HtnTypedObject) : pyEq x x = true := by
  simp [pyEq, properSubclass_irrefl, eqMethod_self x rfl]

theorem pyHashEq_refl (x : HtnTypedObject) : pyHashEq x x = true := by
  simp [pyHashEq, pyValEq_refl]

/-- `HTN_TRUE = HtnConstant(True, HTN_BOOLEAN)`. -/
def htnTrue : HtnTypedObject := { cls := .cst, value := .pbool true, tpe := htnBoolean }
/-- `HTN_FALSE = HtnConstant(False, HTN_BOOLEAN)`. -/
def htnFalse : HtnTypedObject := { cls := .cst, value := .pbool false, tpe := htnBoolean }

/-- `HtnTimepoint.__add__`: keeps the class, value and type, adds the
delay (Python converts the argument with `float`; here the argument is
already a number). -/
def tpAdd (o : HtnTypedObject) (q : Rat) : HtnTypedObject :=
  { o with delay := o.delay + q }

/-- The concrete subclass of `HtnSymbol` a symbol was built with.  All
subclasses use `eq=False` dataclasses, so they inherit
`HtnSymbol.__eq__`, which compares names only; the generated hash is
likewise name-based. -/
inductive SymKind where
  | plain | sv | prim | comp | method
deriving DecidableEq

/-- `HtnSymbol` and its subclasses: a name, tagged with the class it
was instantiated at. -/
structure HtnSymbol where
  kind : SymKind
  name : String
deriving DecidableEq

/-- `HtnSymbol.__eq__`: name comparison only, across all subclasses. -/
def pySymEq (a b : HtnSymbol) : Bool := a.name == b.name

/-- `HtnLabel`: a dataclass with the generated (structural) equality. -/
structure HtnLabel where
  value : String
deriving DecidableEq

/-- Ordered element-wise comparison of two tuples under a given
element equality (Python tuple `==`). -/
def listEqWith (f : α → α → Bool) : List α → List α → Bool
  | [], [] => true
  | x :: xs, y :: ys => f x y && listEqWith f xs ys
  | _, _ => false

/-- Python `set` membership `x in s` under the collision-free hash
abstraction: some stored element hashes like `x` and compares equal to
it (the stored element is the left operand of `==`, as in CPython's
lookup).  `f x y` receives the probe first and the stored element
second. -/
def pyMem (f : α → α → Bool) (x : α) (s : List α) : Bool := s.any (f x)

/-- Python `set.add`. -/
def pySetAdd (f : α → α → Bool) (s : List α) (x : α) : List α :=
  if pyMem f x s then s else s ++ [x]

theorem pyMem_append_left (f : α → α → Bool) (x : α) (s t : List α)
    (h : pyMem f x s = true) : pyMem f x (s ++ t) = true := by
  simp only [pyMem, List.any_append, Bool.or_eq_true]
  exact Or.inl h

theorem pyMem_pySetAdd_self (f : α → α → Bool) (s : List α) (x : α)
    (hx : f x x = true) : pyMem f x (pySetAdd f s x) = true := by
  unfold pySetAdd
  by_cases h : pyMem f x s = true
  · simp only [h, if_true]
  · simp only [h, if_false, Bool.false_eq_true]
    simp only [pyMem, List.any_append, List.any_cons, List.any_nil,
      Bool.or_eq_true, Bool.or_false]
    exact Or.inr hx

theorem pyMem_pySetAdd_mono (f : α → α → Bool) (s : List α) (x y : α)
    (h : pyMem f x s = true) : pyMem f x (pySetAdd f s y) = true := by
  unfold pySetAdd
  by_cases hm : pyMem f y s = true
  · simp only [hm, if_true]
    exact h
  · simp only [hm, if_false, Bool.false_eq_true]
    exact pyMem_append_left f x s [y] h

theorem pyMem_foldl_pySetAdd_mono (f : α → α → Bool) (l : List α) (s : List α)
    (x : α) (h : pyMem f x s = true) :
    pyMem f x (l.foldl (pySetAdd f) s) = true := by
  induction l generalizing s with
  | nil => simpa using h
  | cons y ys ih =>
    simp only [List.foldl_cons]
    exact ih (pySetAdd f s y) (pyMem_pySetAdd_mono f s x y h)

theorem pyMem_foldl_pySetAdd_of_mem (f : α → α → Bool) (l : List α) (s : List α)
    (x : α) (hx : f x x = true) (h : x ∈ l) :
    pyMem f x (l.foldl (pySetAdd f) s) = true := by
  induction l generalizing s with
  | nil => cases h
  | cons y ys ih =>
    simp only [List.foldl_cons]
    rcases List.mem_cons.mp h with h1 | h1
    · subst h1
      exact pyMem_foldl_pySetAdd_mono f ys (pySetAdd f s x)
        x (pyMem_pySetAdd_self f s x hx)
    · exact ih (pySetAdd f s y) h1

/-- Membership matcher for the typed-object registries (`set` of
variables or constants): hash equality plus Python `==` with the stored
element on the left. -/
def objMatch (x y : HtnTypedObject) : Bool := pyHashEq x y && pyEq y x

/-- Membership matcher for symbol registries: names coincide. -/
def symMatch (x y : HtnSymbol) : Bool := pySymEq y x

/-- Membership matcher for label sets: structural. -/
def labMatch (x y : HtnLabel) : Bool := y == x

theorem objMatch_refl (x : HtnTypedObject) : objMatch x x = true := by
  simp [objMatch, pyHashEq_refl, pyEq_refl]

theorem symMatch_refl (x : HtnSymbol) : symMatch x x = true := by
  simp [symMatch, pySymEq]

theorem labMatch_refl (x : HtnLabel) : labMatch x x = true := by
  simp [labMatch]

/-- `HtnTemporalInterval`: a pair of timepoints.  The Python field
`end` is a Lean keyword and is called `stop` here. -/
structure HtnTemporalInterval where
  start : HtnTypedObject
  stop : HtnTypedObject
deriving DecidableEq

/-- `HtnTemporalInterval.__add__`: shifts both endpoints. -/
def intervalAdd (i : HtnTemporalInterval) (q : Rat) : HtnTemporalInterval :=
  ⟨tpAdd i.start q, tpAdd i.stop q⟩

/-- `HtnTemporalInterval.__sub__ = __add__` of the negation; it shifts
both the start and the end. -/
def intervalSub (i : HtnTemporalInterval) (q : Rat) : HtnTemporalInterval :=
  intervalAdd i (-q)

/-- `HtnTemporalInterval.__eq__`: both endpoints equal (each endpoint
comparison puts the other interval's timepoint on the left, as in the
source). -/
def intervalPyEq (a b : HtnTemporalInterval) : Bool :=
  pyEq b.start a.start && pyEq b.stop a.stop

def intervalHashEq (a b : HtnTemporalInterval) : Bool :=
  pyHashEq a.start b.start && pyHashEq a.stop b.stop

theorem intervalPyEq_refl (i : HtnTemporalInterval) : intervalPyEq i i = true := by
  simp [intervalPyEq, pyEq_refl]

theorem intervalHashEq_refl (i : HtnTemporalInterval) : intervalHashEq i i = true := by
  simp [intervalHashEq, pyHashEq_refl]

/-- `HtnStateVariable`: a state-variable symbol applied to parameters,
with a value type.  Its `__eq__` and `__hash__` are the
dataclass-generated ones over `(symbol, params, tpe)` (the user-defined
parameter-set equality of `HtnParametricSymbol` is overridden by the
generated method on this subclass). -/
structure HtnStateVariable where
  symbol : HtnSymbol
  params : List HtnTypedObject
  tpe : HtnType := htnBoolean
deriving DecidableEq

def svPyEq (a b : HtnStateVariable) : Bool :=
  pySymEq a.symbol b.symbol && listEqWith pyEq a.params b.params && (a.tpe == b.tpe)

def svHashEq (a b : HtnStateVariable) : Bool :=
  pySymEq a.symbol b.symbol && listEqWith pyHashEq a.params b.params && (a.tpe == b.tpe)

/-- `HtnCondition`: dataclass-generated equality over
`(sv, value, interval)`. -/
structure HtnCondition where
  sv : HtnStateVariable
  value : HtnTypedObject := htnTrue
  interval : HtnTemporalInterval
deriving DecidableEq

/-- `HtnEffect`: same fields as a condition. -/
structure HtnEffect where
  sv : HtnStateVariable
  value : HtnTypedObject
  interval : HtnTemporalInterval
deriving DecidableEq

def condPyEq (a b : HtnCondition) : Bool :=
  svPyEq a.sv b.sv && pyEq a.value b.value && intervalPyEq a.interval b.interval

def condHashEq (a b : HtnCondition) : Bool :=
  svHashEq a.sv b.sv && pyHashEq a.value b.value && intervalHashEq a.interval b.interval

def effPyEq (a b : HtnEffect) : Bool :=
  svPyEq a.sv b.sv && pyEq a.value b.value && intervalPyEq a.interval b.interval

def effHashEq (a b : HtnEffect) : Bool :=
  svHashEq a.sv b.sv && pyHashEq a.value b.value && intervalHashEq a.interval b.interval

/-- Constraint relations. -/
inductive CRel where
  | req | rne | rlt | rle | rgt | rge
deriving DecidableEq

def CRel.str : CRel → String
  | .req => "=="
  | .rne => "!="
  | .rlt => "<"
  | .rle => "<="
  | .rgt => ">"
  | .rge => ">="

/-- `HtnConstraint` and its subclass `HtnTemporalConstraint`, with the
dataclass-generated (class-exact) equality each. -/
inductive HtnConstraint where
  | plain (left right : HtnTypedObject) (relation : CRel)
  | temporal (left right : HtnTypedObject) (relation : CRel)
      (leftLabel rightLabel : Option HtnLabel)
deriving DecidableEq

def constraintPyEq (a b : HtnConstraint) : Bool :=
  match a, b with
  | .plain l r rel, .plain l2 r2 rel2 =>
      pyEq l l2 && pyEq r r2 && (rel == rel2)
  | .temporal l r rel ll rl, .temporal l2 r2 rel2 ll2 rl2 =>
      pyEq l l2 && pyEq r r2 && (rel == rel2) && (ll == ll2) && (rl == rl2)
  | _, _ => false

def constraintHashEq (a b : HtnConstraint) : Bool :=
  match a, b with
  | .plain l r rel, .plain l2 r2 rel2 =>
      pyHashEq l l2 && pyHashEq r r2 && (rel == rel2)
  | .temporal l r rel ll rl, .temporal l2 r2 rel2 ll2 rl2 =>
      pyHashEq l l2 && pyHashEq r r2 && (rel == rel2) && (ll == ll2) && (rl == rl2)
  | _, _ => false

/-- Conversion-time and construction-time errors (Python exception
classes of the two source files). -/
inductive ConvError where
  | uncreatedContext
  | uncreatedSymbolTable
  | unregisteredSymbol (name : String)
  | constraintArgument
  | notImplementedType
  | valueError
  | typeError
deriving DecidableEq

/-- `HtnConstraintFactory._make`: timepoint operands yield a temporal
constraint, mixed operands or labels on a non-temporal constraint
raise `ConstraintArgumentError`. -/
def factoryMake (left right : HtnTypedObject) (relation : CRel)
    (labLeft labRight : Option HtnLabel) : Except ConvError HtnConstraint :=
  if isTimepointCls left.cls then
    if isTimepointCls right.cls then
      .ok (.temporal left right relation labLeft labRight)
    else .error .constraintArgument
  else if isTimepointCls right.cls then .error .constraintArgument
  else if labLeft.isSome then .error .constraintArgument
  else if labRight.isSome then .error .constraintArgument
  else .ok (.plain left right relation)

/-- `HtnConstraintFactory.min_duration` on a task or interval:
`end >= start + duration` with the same label on both sides. -/
def minDuration (i : HtnTemporalInterval) (d : Rat) (lab : Option HtnLabel) :
    Except ConvError HtnConstraint :=
  factoryMake i.stop (tpAdd i.start d) .rge lab lab

/-- `HtnConstraintFactory.min_duration_eps`. -/
def minDurationEps (i : HtnTemporalInterval) (lab : Option HtnLabel) :
    Except ConvError HtnConstraint :=
  minDuration i htnEpsilon lab

/-- The opposition value computed by `HtnEffectFactory.dirac`:
`HTN_TRUE if value == HTN_FALSE else HTN_FALSE`. -/
def oppositionValue (value : HtnTypedObject) : HtnTypedObject :=
  if pyEq value htnFalse then htnTrue else htnFalse

/-- `HtnEffectFactory.dirac`: requires a boolean state variable, then
returns the effect pair `(value on interval - ε, opposition on
interval)`. -/
def dirac (sv : HtnStateVariable) (value : HtnTypedObject)
    (interval : HtnTemporalInterval) :
    Except ConvError (HtnEffect × HtnEffect) :=
  if sv.tpe ≠ htnBoolean then .error .typeError
  else
    .ok (⟨sv, value, intervalSub interval htnEpsilon⟩,
         ⟨sv, oppositionValue value, interval⟩)

/-- The parameter comparison loop of `HtnParametricSymbol.__eq__`:
lengths must agree and every parameter of the LEFT operand must find
some `==`-equal parameter on the right. -/
def paramsSetMatch (p q : List HtnTypedObject) : Bool :=
  (p.length == q.length) && p.all (fun a => q.any (fun b => pyEq a b))

/-- A direct `HtnParametricSymbol` instance: a symbol with an ordered
parameter tuple. -/
structure HtnParametricSymbol where
  symbol : HtnSymbol
  params : List HtnTypedObject
deriving DecidableEq

/-- `HtnParametricSymbol.__eq__` for two direct instances. -/
def psEq (a b : HtnParametricSymbol) : Bool :=
  pySymEq a.symbol b.symbol && paramsSetMatch a.params b.params

/-- `HtnPrimitiveTask`: symbol, explicit parameters, interval,
constraints, conditions, effects. -/
structure HtnPrimitiveTask where
  symbol : HtnSymbol
  params : List HtnTypedObject
  interval : HtnTemporalInterval
  constraints : List HtnConstraint := []
  conditions : List HtnCondition := []
  effects : List HtnEffect := []
deriving DecidableEq

/-- `HtnCompoundTask`: symbol, parameters, interval. -/
structure HtnCompoundTask where
  symbol : HtnSymbol
  params : List HtnTypedObject
  interval : HtnTemporalInterval
deriving DecidableEq

/-- A task is a primitive or a compound task. -/
inductive HtnTask where
  | prim (t : HtnPrimitiveTask)
  | comp (t : HtnCompoundTask)
deriving DecidableEq

def HtnTask.symbol : HtnTask → HtnSymbol
  | .prim t => t.symbol
  | .comp t => t.symbol

def HtnTask.params : HtnTask → List HtnTypedObject
  | .prim t => t.params
  | .comp t => t.params

def HtnTask.interval : HtnTask → HtnTemporalInterval
  | .prim t => t.interval
  | .comp t => t.interval

/-- `HtnPrimitiveTask.__eq__`: the parametric-symbol comparison
(symbol, length, left-parameter matching), the interval, and the three
content tuples compared element-wise in order. -/
def primPyEq (a b : HtnPrimitiveTask) : Bool :=
  pySymEq a.symbol b.symbol && paramsSetMatch a.params b.params
    && intervalPyEq a.interval b.interval
    && listEqWith constraintPyEq a.constraints b.constraints
    && listEqWith condPyEq a.conditions b.conditions
    && listEqWith effPyEq a.effects b.effects

/-- `HtnCompoundTask.__eq__`. -/
def compPyEq (a b : HtnCompoundTask) : Bool :=
  pySymEq a.symbol b.symbol && paramsSetMatch a.params b.params
    && intervalPyEq a.interval b.interval

/-- Python `==` between tasks: the `isinstance` checks in
`HtnPrimitiveTask.__eq__` / `HtnCompoundTask.__eq__` make instances of
the two different subclasses compare unequal. -/
def taskPyEq (a b : HtnTask) : Bool :=
  match a, b with
  | .prim x, .prim y => primPyEq x y
  | .comp x, .comp y => compPyEq x y
  | _, _ => false

/-- Hash-tuple equality for primitive tasks: the generated hash is over
`(symbol, params, interval, constraints, conditions, effects)` with the
parameter tuple ORDER-SENSITIVE (unlike `__eq__`). -/
def primHashEq (a b : HtnPrimitiveTask) : Bool :=
  pySymEq a.symbol b.symbol && listEqWith pyHashEq a.params b.params
    && intervalHashEq a.interval b.interval
    && listEqWith constraintHashEq a.constraints b.constraints
    && listEqWith condHashEq a.conditions b.conditions
    && listEqWith effHashEq a.effects b.effects

def compHashEq (a b : HtnCompoundTask) : Bool :=
  pySymEq a.symbol b.symbol && listEqWith pyHashEq a.params b.params
    && intervalHashEq a.interval b.interval

def taskHashEq (a b : HtnTask) : Bool :=
  match a, b with
  | .prim x, .prim y => primHashEq x y
  | .comp x, .comp y => compHashEq x y
  | _, _ => false

/-- Membership matcher for the actions registry. -/
def actionMatch (x y : HtnPrimitiveTask) : Bool := primHashEq x y && primPyEq y x

/-- Membership matcher for the compound-task registry. -/
def compMatch (x y : HtnCompoundTask) : Bool := compHashEq x y && compPyEq y x

/-- Membership matcher for the state-variable registry. -/
def svMatch (x y : HtnStateVariable) : Bool := svHashEq x y && svPyEq y x

/-- Membership matcher for the initial-effects registry. -/
def effMatch (x y : HtnEffect) : Bool := effHashEq x y && effPyEq y x

/-- Membership matcher for the types registry: `HtnType.__eq__` is
structural and its hash agrees with it. -/
def typeMatch (x y : HtnType) : Bool := y == x

/-- Append the elements of `xs` to `acc`, skipping any element already
`==`-equal to one in the accumulator (the `param not in all_params`
loop of `HtnPrimitiveTask.all_params`, with the list element as the
left operand of `==` as in CPython's `in`). -/
def dedupAppend (acc : List HtnTypedObject) (xs : List HtnTypedObject) :
    List HtnTypedObject :=
  xs.foldl (fun l p => if l.any (fun item => pyEq item p) then l else l ++ [p]) acc

/-- `HtnPrimitiveTask.state_variables` flattened to a list.  The source
builds a Python `set`; duplicates are harmless here because every use
either deduplicates again (`all_params`) or registers into a set. -/
def HtnPrimitiveTask.stateVariables (a : HtnPrimitiveTask) : List HtnStateVariable :=
  a.conditions.map (fun c => c.sv) ++ a.effects.map (fun e => e.sv)

/-- `HtnPrimitiveTask.all_params`: the explicit parameters followed by
every state-variable parameter not yet present. -/
def HtnPrimitiveTask.allParams (a : HtnPrimitiveTask) : List HtnTypedObject :=
  dedupAppend a.params (a.stateVariables.flatMap (fun sv => sv.params))

def HtnTask.allParams : HtnTask → List HtnTypedObject
  | .prim t => t.allParams
  | .comp t => t.params

/-- `HtnLabelMappingPair`. -/
structure HtnLabelMappingPair where
  label : HtnLabel
  task : HtnTask
deriving DecidableEq

/-- `HtnTaskNetwork`: label-mapping pairs plus intra-network temporal
constraints. -/
structure HtnTaskNetwork where
  labelMapping : List HtnLabelMappingPair := []
  constraints : List HtnConstraint := []
deriving DecidableEq

/-- `HtnMethod`: a compound task, the realizing task network, its own
constraints and conditions, and a method symbol. -/
structure HtnMethod where
  task : HtnCompoundTask
  taskNetwork : HtnTaskNetwork
  constraints : List HtnConstraint := []
  conditions : List HtnCondition := []
  symbol : HtnSymbol
deriving DecidableEq

/-- `HtnMethod.state_variables` flattened (conditions only). -/
def HtnMethod.stateVariables (m : HtnMethod) : List HtnStateVariable :=
  m.conditions.map (fun c => c.sv)

/-- `HtnMethod.all_params`: the union of the task's, the subtasks' and
the condition state variables' parameters.  The source materialises a
Python `set` whose iteration order is unspecified; this embedding fixes
first-occurrence order and no theorem depends on the resulting order. -/
def HtnMethod.allParams (m : HtnMethod) : List HtnTypedObject :=
  dedupAppend []
    ((HtnTask.comp m.task).allParams
      ++ (m.taskNetwork.labelMapping.flatMap (fun lmp => lmp.task.allParams))
      ++ (m.stateVariables.flatMap (fun sv => sv.params)))

def lmpPyEq (a b : HtnLabelMappingPair) : Bool :=
  (a.label == b.label) && taskPyEq a.task b.task

def lmpHashEq (a b : HtnLabelMappingPair) : Bool :=
  (a.label == b.label) && taskHashEq a.task b.task

def networkPyEq (a b : HtnTaskNetwork) : Bool :=
  listEqWith lmpPyEq a.labelMapping b.labelMapping
    && listEqWith constraintPyEq a.constraints b.constraints

def networkHashEq (a b : HtnTaskNetwork) : Bool :=
  listEqWith lmpHashEq a.labelMapping b.labelMapping
    && listEqWith constraintHashEq a.constraints b.constraints

/-- Dataclass-generated `HtnMethod.__eq__` over
`(task, task_network, constraints, conditions, symbol)`. -/
def methodPyEq (a b : HtnMethod) : Bool :=
  compPyEq a.task b.task && networkPyEq a.taskNetwork b.taskNetwork
    && listEqWith constraintPyEq a.constraints b.constraints
    && listEqWith condPyEq a.conditions b.conditions
    && pySymEq a.symbol b.symbol

def methodHashEq (a b : HtnMethod) : Bool :=
  compHashEq a.task b.task && networkHashEq a.taskNetwork b.taskNetwork
    && listEqWith constraintHashEq a.constraints b.constraints
    && listEqWith condHashEq a.conditions b.conditions
    && pySymEq a.symbol b.symbol

/-- Membership matcher for the methods registry. -/
def methodMatch (x y : HtnMethod) : Bool := methodHashEq x y && methodPyEq y x

/-- `HtnLanguage`: the vocabulary sets (variables, constants,
state-variable symbols, primitive-task symbols, compound-task symbols,
labels).  Note there is no component for method symbols. -/
structure HtnLanguage where
  Vars : List HtnTypedObject := []
  Csts : List HtnTypedObject := []
  StVars : List HtnSymbol := []
  Prims : List HtnSymbol := []
  Comps : List HtnSymbol := []
  Labs : List HtnLabel := []
deriving DecidableEq

/-- `HtnParametricSymbol.variables` of a task: the parameters that are
`HtnVariable` instances. -/
def taskVariables (t : HtnTask) : List HtnTypedObject :=
  t.params.filter (fun p => isVariableCls p.cls)

/-- `HtnParametricSymbol.constants` of a task. -/
def taskConstants (t : HtnTask) : List HtnTypedObject :=
  t.params.filter (fun p => isConstantCls p.cls)

/-- `HtnLanguage.add_task`. -/
def HtnLanguage.addTask (L : HtnLanguage) (t : HtnTask) : HtnLanguage :=
  let L1 := { L with
    Vars := (taskVariables t).foldl (pySetAdd objMatch) L.Vars,
    Csts := (taskConstants t).foldl (pySetAdd objMatch) L.Csts }
  match t with
  | .prim a =>
      { L1 with
        Prims := pySetAdd symMatch L1.Prims a.symbol,
        StVars := (a.stateVariables.map (fun sv => sv.symbol)).foldl
          (pySetAdd symMatch) L1.StVars }
  | .comp c => { L1 with Comps := pySetAdd symMatch L1.Comps c.symbol }

/-- One iteration of the label-mapping loop in
`HtnLanguage.add_method`: register the label, then the task. -/
def langMethodStep (L : HtnLanguage) (lmp : HtnLabelMappingPair) : HtnLanguage :=
  ({ L with Labs := pySetAdd labMatch L.Labs lmp.label } : HtnLanguage).addTask
    lmp.task

/-- `HtnLanguage.add_method`: adds the achieved task, the condition
state-variable symbols, and each label-mapping pair's label and task.
The method's own symbol is NOT registered anywhere. -/
def HtnLanguage.addMethod (L : HtnLanguage) (m : HtnMethod) : HtnLanguage :=
  let L1 := L.addTask (.comp m.task)
  let L2 := { L1 with
    StVars := (m.stateVariables.map (fun sv => sv.symbol)).foldl
      (pySetAdd symMatch) L1.StVars }
  m.taskNetwork.labelMapping.foldl langMethodStep L2

/-- `HtnDomain`. -/
structure HtnDomain where
  L : HtnLanguage := {}
  Tp : List HtnPrimitiveTask := []
  Tc : List HtnCompoundTask := []
  M : List HtnMethod := []
  name : String := "domain"
deriving DecidableEq

/-- `HtnDomain.add_task`. -/
def HtnDomain.addTask (D : HtnDomain) (t : HtnTask) : HtnDomain :=
  let D1 := { D with L := D.L.addTask t }
  match t with
  | .prim a => { D1 with Tp := pySetAdd actionMatch D1.Tp a }
  | .comp c => { D1 with Tc := pySetAdd compMatch D1.Tc c }

/-- One iteration of the subtask loop in `HtnDomain.add_method`. -/
def domainMethodStep (D : HtnDomain) (lmp : HtnLabelMappingPair) : HtnDomain :=
  D.addTask lmp.task

/-- `HtnDomain.add_method`: registers the method's language elements
and the method itself, then adds every subtask as a domain task. -/
def HtnDomain.addMethod (D : HtnDomain) (m : HtnMethod) : HtnDomain :=
  let D1 := { D with L := D.L.addMethod m, M := pySetAdd methodMatch D.M m }
  m.taskNetwork.labelMapping.foldl domainMethodStep D1

/-- One invocation of the external chronicles builder. -/
inductive BuilderCall where
  | addType (name : String) (parent : Option String)
  | addActionSymbol (name : String)
  | addConstantSymbol (name tpeName : String)
  | addMethodSymbol (name : String)
  | addPredicateSymbol (name : String)
  | addFunctionSymbol (name : String)
  | addTaskSymbol (name : String)
  | createSymbolTable
  | createContext
  | addPredicate (signature : List String)
  | addFunction (signature : List String)
  | addAction (signature : List String) (constraints : List (List String))
      (conditions : List (List String)) (effects : List (List String))
  | addMethod (signature : List String) (constraints : List (List String))
      (conditions : List (List String)) (task : List String)
      (subtasks : List (List String)) (subtaskConstraints : List (List String))
  | addGoal (tasks : List (List String)) (constraints : List (List String))
  | addInitialEffect (signature : List String)
deriving DecidableEq

/-- Modelled from the spec: the compiled `chronicles` extension module
(`from .chronicles import ChronicleProblem`) is repository code that is
not under src/; only its call sites are.  Per the specification the
conversion protocol is a linear state machine in which `create_context`
may only follow `create_symbol_table`, and an out-of-order call "fails
with the corresponding ordering error".  The builder is therefore
modelled with the two phase flags and a call trace; the only enforced
transition is the one the specification describes for `create_context`.
All other builder entry points are recorded in the trace and succeed. -/
structure LcpChronicleProblem where
  stCreated : Bool := false
  ctxCreated : Bool := false
  calls : List BuilderCall := []
deriving DecidableEq

def LcpChronicleProblem.push (b : LcpChronicleProblem) (c : BuilderCall) :
    LcpChronicleProblem :=
  { b with calls := b.calls ++ [c] }

def LcpChronicleProblem.bCreateSymbolTable (b : LcpChronicleProblem) :
    LcpChronicleProblem :=
  ({ b with stCreated := true } : LcpChronicleProblem).push .createSymbolTable

/-- Modelled from the spec: `create_context` before `create_symbol_table`
fails with the symbol-table ordering error. -/
def LcpChronicleProblem.bCreateContext (b : LcpChronicleProblem) :
    Except ConvError LcpChronicleProblem :=
  if b.stCreated then
    .ok (({ b with ctxCreated := true } : LcpChronicleProblem).push .createContext)
  else .error .uncreatedSymbolTable

/-- `ChronicleSymbolType`. -/
inductive ChronicleSymbolType where
  | action | constant | method | predicate | function | task
deriving DecidableEq

/-- `ChroniclesProblem`: phase flags, the registries of already-seen
elements, and the wrapped builder. -/
structure ChroniclesProblem where
  name : String := "problem"
  problem : LcpChronicleProblem := {}
  contextCreated : Bool := false
  symbolTableCreated : Bool := false
  actions : List HtnPrimitiveTask := []
  constants : List HtnTypedObject := []
  initialEffects : List HtnEffect := []
  methods : List HtnMethod := []
  stateVariables : List HtnStateVariable := []
  symbols : List HtnSymbol := []
  tasks : List HtnCompoundTask := []
  types : List HtnType := []
  variablesReg : List HtnTypedObject := []
deriving DecidableEq

/-- A fresh `ChroniclesProblem(name)`. -/
def freshCp (n : String) : ChroniclesProblem := { name := n }

def labelSuffix : Option HtnLabel → String
  | none => ""
  | some l => l.value

/-- Python `int()` truncation toward zero of an exact rational. -/
def pyIntTrunc (q : Rat) : Int := Int.tdiv q.num q.den

/-- `get_timepoint`: value, optional label suffix, truncated scaled
delay, type name. -/
def getTimepoint (o : HtnTypedObject) (lab : Option HtnLabel) : String :=
  pyValStr o.value ++ labelSuffix lab ++ " + "
    ++ toString (pyIntTrunc (o.delay * htnTimeScale)) ++ " - " ++ o.tpe.name

/-- `get_typed_object`. -/
def getTypedObject (o : HtnTypedObject) : String :=
  if isTimepointCls o.cls then getTimepoint o none
  else pyValStr o.value ++ " - " ++ o.tpe.name

/-- `get_interval`. -/
def getIntervalStrs (i : HtnTemporalInterval) (lab : Option HtnLabel) :
    List String :=
  [getTimepoint i.start lab, getTimepoint i.stop lab]

/-- `get_constraint` / `get_temporal_constraint`. -/
def getConstraint : HtnConstraint → List String
  | .temporal l r rel ll rl => [getTimepoint l ll, rel.str, getTimepoint r rl]
  | .plain l r rel => [getTypedObject l, rel.str, getTypedObject r]

/-- The argument of `get_signature`: a parametric symbol or a method. -/
inductive ParamEntity where
  | prim (a : HtnPrimitiveTask)
  | comp (c : HtnCompoundTask)
  | sv (s : HtnStateVariable)
  | method (m : HtnMethod)

def ParamEntity.symbol : ParamEntity → HtnSymbol
  | .prim a => a.symbol
  | .comp c => c.symbol
  | .sv s => s.symbol
  | .method m => m.symbol

def ParamEntity.allParams : ParamEntity → List HtnTypedObject
  | .prim a => a.allParams
  | .comp c => c.params
  | .sv s => s.params
  | .method m => m.allParams

def HtnTask.toEntity : HtnTask → ParamEntity
  | .prim a => .prim a
  | .comp c => .comp c

def ChroniclesProblem.checkContext (cp : ChroniclesProblem) :
    Except ConvError Unit :=
  if cp.contextCreated then .ok () else .error .uncreatedContext

def ChroniclesProblem.checkSymbolTable (cp : ChroniclesProblem) :
    Except ConvError Unit :=
  if cp.symbolTableCreated then .ok () else .error .uncreatedSymbolTable

def ChroniclesProblem.checkSymbol (cp : ChroniclesProblem) (s : HtnSymbol) :
    Except ConvError Unit :=
  match cp.checkSymbolTable with
  | .error e => .error e
  | .ok _ =>
      if pyMem symMatch s cp.symbols then .ok ()
      else .error (.unregisteredSymbol s.name)

/-- `get_signature`: symbol name followed by the rendered parameters;
guarded by `check_symbol` and `check_symbol_table`. -/
def ChroniclesProblem.getSignature (cp : ChroniclesProblem) (e : ParamEntity) :
    Except ConvError (List String) :=
  match cp.checkSymbol e.symbol with
  | .error er => .error er
  | .ok _ =>
      match cp.checkSymbolTable with
      | .error er => .error er
      | .ok _ => .ok (e.symbol.name :: e.allParams.map getTypedObject)

/-- `get_signature_temporal` on a task. -/
def ChroniclesProblem.getSignatureTemporalTask (cp : ChroniclesProblem)
    (t : HtnTask) (lab : Option HtnLabel) : Except ConvError (List String) :=
  match cp.getSignature t.toEntity with
  | .error er => .error er
  | .ok sig => .ok (sig ++ getIntervalStrs t.interval lab)

/-- `get_signature_temporal` on a method (its interval is the achieved
task's interval). -/
def ChroniclesProblem.getSignatureTemporalMethod (cp : ChroniclesProblem)
    (m : HtnMethod) (lab : Option HtnLabel) : Except ConvError (List String) :=
  match cp.getSignature (.method m) with
  | .error er => .error er
  | .ok sig => .ok (sig ++ getIntervalStrs m.task.interval lab)

/-- `get_condition`. -/
def ChroniclesProblem.getCondition (cp : ChroniclesProblem) (c : HtnCondition) :
    Except ConvError (List String) :=
  match cp.getSignature (.sv c.sv) with
  | .error er => .error er
  | .ok sig => .ok (sig ++ [pyValStr c.value.value] ++ getIntervalStrs c.interval none)

/-- `get_effect`. -/
def ChroniclesProblem.getEffect (cp : ChroniclesProblem) (e : HtnEffect) :
    Except ConvError (List String) :=
  match cp.getSignature (.sv e.sv) with
  | .error er => .error er
  | .ok sig => .ok (sig ++ [pyValStr e.value.value] ++ getIntervalStrs e.interval none)

/-- Sequentially render a list, stopping at the first error. -/
def exMapM (f : α → Except ConvError β) : List α → Except ConvError (List β)
  | [] => .ok []
  | x :: xs =>
      match f x with
      | .error e => .error e
      | .ok y =>
          match exMapM f xs with
          | .error e => .error e
          | .ok ys => .ok (y :: ys)

theorem exMapM_length (f : α → Except ConvError β) (l : List α)
    (r : List β) (h : exMapM f l = .ok r) : r.length = l.length := by
  induction l generalizing r with
  | nil => simp [exMapM] at h; simp [← h]
  | cons x xs ih =>
    simp only [exMapM] at h
    cases hx : f x with
    | error e => rw [hx] at h; cases h
    | ok y =>
      rw [hx] at h
      cases hxs : exMapM f xs with
      | error e => rw [hxs] at h; cases h
      | ok ys =>
        rw [hxs] at h
        cases h
        simp [ih ys hxs]

/-- `ChroniclesProblem.add_type`: early return on membership, then
registry insert, builder call, and recursion up the parent chain. -/
def ChroniclesProblem.addType (cp : ChroniclesProblem) : HtnType → ChroniclesProblem
  | .mk n parent =>
    if pyMem typeMatch (HtnType.mk n parent) cp.types then cp
    else
      let cp1 := { cp with
        types := cp.types ++ [HtnType.mk n parent],
        problem := cp.problem.push
          (.addType n (parent.map HtnType.name)) }
      match parent with
      | some p => cp1.addType p
      | none => cp1

/-- `ChroniclesProblem.add_symbol`.  On the error branch the Python
object retains the inserted symbol while the exception propagates; the
returned error value models the exception and no claim observes the
state left behind by a raising call. -/
def ChroniclesProblem.addSymbol (cp : ChroniclesProblem) (symbol : HtnSymbol)
    (symbolType : ChronicleSymbolType) (htnType : Option HtnType) :
    Except ConvError ChroniclesProblem :=
  if pyMem symMatch symbol cp.symbols then .ok cp
  else
    let cp1 := { cp with symbols := cp.symbols ++ [symbol] }
    match symbolType with
    | .action =>
        .ok { cp1 with problem := cp1.problem.push (.addActionSymbol symbol.name) }
    | .constant =>
        match htnType with
        | none => .error .valueError
        | some t =>
            .ok { cp1 with
              problem := cp1.problem.push (.addConstantSymbol symbol.name t.name) }
    | .method =>
        .ok { cp1 with problem := cp1.problem.push (.addMethodSymbol symbol.name) }
    | .predicate =>
        .ok { cp1 with problem := cp1.problem.push (.addPredicateSymbol symbol.name) }
    | .function =>
        .ok { cp1 with problem := cp1.problem.push (.addFunctionSymbol symbol.name) }
    | .task =>
        .ok { cp1 with problem := cp1.problem.push (.addTaskSymbol symbol.name) }

/-- `ChroniclesProblem.add_constant`. -/
def ChroniclesProblem.addConstant (cp : ChroniclesProblem) (c : HtnTypedObject) :
    Except ConvError ChroniclesProblem :=
  if pyMem objMatch c cp.constants then .ok cp
  else
    let cp1 := { cp with constants := cp.constants ++ [c] }
    let cp2 := cp1.addType c.tpe
    cp2.addSymbol ⟨.plain, pyValStr c.value⟩ .constant (some c.tpe)

/-- `ChroniclesProblem.add_variable`. -/
def ChroniclesProblem.addVariable (cp : ChroniclesProblem) (v : HtnTypedObject) :
    ChroniclesProblem :=
  if pyMem objMatch v cp.variablesReg then cp
  else
    let cp1 := { cp with variablesReg := cp.variablesReg ++ [v] }
    cp1.addType v.tpe

/-- `ChroniclesProblem.add_state_variable`. -/
def ChroniclesProblem.addStateVariable (cp : ChroniclesProblem)
    (sv : HtnStateVariable) : Except ConvError ChroniclesProblem :=
  if pyMem svMatch sv cp.stateVariables then .ok cp
  else
    match cp.checkSymbol sv.symbol with
    | .error e => .error e
    | .ok _ =>
      let cp1 := { cp with stateVariables := cp.stateVariables ++ [sv] }
      match cp1.getSignature (.sv sv) with
      | .error e => .error e
      | .ok sig =>
          if sv.tpe = htnBoolean then
            .ok { cp1 with problem := cp1.problem.push (.addPredicate sig) }
          else if sv.tpe = htnInteger then
            .ok { cp1 with problem := cp1.problem.push (.addFunction sig) }
          else .error .notImplementedType

/-- `ChroniclesProblem.add_action`: early return on membership, the
symbol and context guards, the registry insert, the renderings, and the
synthesized `min_duration_eps` constraint when the action has at least
one effect. -/
def ChroniclesProblem.addAction (cp : ChroniclesProblem) (a : HtnPrimitiveTask) :
    Except ConvError ChroniclesProblem :=
  if pyMem actionMatch a cp.actions then .ok cp
  else
    match cp.checkSymbol a.symbol with
    | .error e => .error e
    | .ok _ =>
      match cp.checkContext with
      | .error e => .error e
      | .ok _ =>
        let cp1 := { cp with actions := cp.actions ++ [a] }
        match cp1.getSignatureTemporalTask (.prim a) none with
        | .error e => .error e
        | .ok sig =>
          let constraints := a.constraints.map getConstraint
          match exMapM cp1.getCondition a.conditions with
          | .error e => .error e
          | .ok conditions =>
            match exMapM cp1.getEffect a.effects with
            | .error e => .error e
            | .ok effects =>
              if effects.length > 0 then
                match minDurationEps a.interval none with
                | .error e => .error e
                | .ok c =>
                    let b2 := cp1.problem.push
                      (.addAction sig (constraints ++ [getConstraint c])
                        conditions effects)
                    .ok { cp1 with problem := b2 }
              else
                let b2 := cp1.problem.push
                  (.addAction sig constraints conditions effects)
                .ok { cp1 with problem := b2 }

/-- `ChroniclesProblem.add_method`. -/
def ChroniclesProblem.addMethod (cp : ChroniclesProblem) (m : HtnMethod) :
    Except ConvError ChroniclesProblem :=
  if pyMem methodMatch m cp.methods then .ok cp
  else
    match cp.checkSymbol m.symbol with
    | .error e => .error e
    | .ok _ =>
      match cp.checkContext with
      | .error e => .error e
      | .ok _ =>
        let cp1 := { cp with methods := cp.methods ++ [m] }
        match cp1.getSignatureTemporalMethod m none with
        | .error e => .error e
        | .ok sig =>
          let constraints := m.constraints.map getConstraint
          match exMapM cp1.getCondition m.conditions with
          | .error e => .error e
          | .ok conditions =>
            match cp1.getSignature (.comp m.task) with
            | .error e => .error e
            | .ok task =>
              match exMapM
                  (fun lmp => cp1.getSignatureTemporalTask lmp.task (some lmp.label))
                  m.taskNetwork.labelMapping with
              | .error e => .error e
              | .ok subtasks =>
                  let subCs := m.taskNetwork.constraints.map getConstraint
                  let b2 := cp1.problem.push
                    (.addMethod sig constraints conditions task subtasks subCs)
                  .ok { cp1 with problem := b2 }

/-- `ChroniclesProblem.add_initial_effect`. -/
def ChroniclesProblem.addInitialEffect (cp : ChroniclesProblem) (e : HtnEffect) :
    Except ConvError ChroniclesProblem :=
  if pyMem effMatch e cp.initialEffects then .ok cp
  else
    match cp.checkSymbol e.sv.symbol with
    | .error er => .error er
    | .ok _ =>
      match cp.checkContext with
      | .error er => .error er
      | .ok _ =>
        let cp1 := { cp with initialEffects := cp.initialEffects ++ [e] }
        match cp1.getEffect e with
        | .error er => .error er
        | .ok sig =>
            .ok { cp1 with problem := cp1.problem.push (.addInitialEffect sig) }

/-- `ChroniclesProblem.set_goal`. -/
def ChroniclesProblem.setGoal (cp : ChroniclesProblem)
    (tn : Option HtnTaskNetwork) : Except ConvError ChroniclesProblem :=
  match tn with
  | none => .ok cp
  | some tn =>
    match cp.checkSymbolTable with
    | .error er => .error er
    | .ok _ =>
      match cp.checkContext with
      | .error er => .error er
      | .ok _ =>
        match exMapM
            (fun lmp => cp.getSignatureTemporalTask lmp.task (some lmp.label))
            tn.labelMapping with
        | .error er => .error er
        | .ok tasks =>
            let cs := tn.constraints.map getConstraint
            .ok { cp with problem := cp.problem.push (.addGoal tasks cs) }

/-- `ChroniclesProblem.create_symbol_table`: no wrapper-side guard;
builder call, then the flag. -/
def ChroniclesProblem.createSymbolTable (cp : ChroniclesProblem) :
    ChroniclesProblem :=
  { cp with problem := cp.problem.bCreateSymbolTable, symbolTableCreated := true }

/-- `ChroniclesProblem.create_context`: the wrapper performs no check of
its own; the builder call decides (see `LcpChronicleProblem.bCreateContext`). -/
def ChroniclesProblem.createContext (cp : ChroniclesProblem) :
    Except ConvError ChroniclesProblem :=
  match cp.problem.bCreateContext with
  | .error e => .error e
  | .ok b => .ok { cp with problem := b, contextCreated := true }

/-
Heap model for the generic entity-update operations `copy_with` and
`copy_and_extend_with` of `HtnEntity`.  These operate on the dynamic
attribute dictionary, deep-copy it, and (for the extend variant) mutate
the copied container objects in place; to make the
"original is unchanged" part of the contract meaningful, attribute
values live in an explicit heap of references.
-/

/-- A Python attribute value: a set, dict, tuple, list (of leaf values)
or a plain value. -/
inductive PyObjVal where
  | pset (elems : List PyVal)
  | pdict (entries : List (PyVal × PyVal))
  | ptup (elems : List PyVal)
  | plist (elems : List PyVal)
  | prim (v : PyVal)
deriving DecidableEq

/-- A heap of attribute objects; `nextRef` is the allocation counter. -/
structure PyHeap where
  objs : List (Nat × PyObjVal) := []
  nextRef : Nat := 0
deriving DecidableEq

def PyHeap.get (h : PyHeap) (r : Nat) : Option PyObjVal :=
  (h.objs.find? (fun p => p.1 == r)).map (fun p => p.2)

def PyHeap.alloc (h : PyHeap) (v : PyObjVal) : PyHeap × Nat :=
  ({ objs := h.objs ++ [(h.nextRef, v)], nextRef := h.nextRef + 1 }, h.nextRef)

/-- In-place mutation of an existing heap object (`set.update` /
`dict.update` on the deep copy). -/
def PyHeap.setObj (h : PyHeap) (r : Nat) (v : PyObjVal) : PyHeap :=
  { h with objs := h.objs.map (fun p => if p.1 == r then (r, v) else p) }

/-- A well-formed heap: every stored reference is below the counter. -/
def PyHeap.wf (h : PyHeap) : Prop :=
  ∀ p ∈ h.objs, p.1 < h.nextRef

/-- An entity as Python sees it: an insertion-ordered attribute
dictionary mapping names to heap references. -/
structure PyEntityObj where
  attrs : List (String × Nat)
deriving DecidableEq

/-- All the entity's references live in the heap. -/
def PyEntityObj.wfIn (e : PyEntityObj) (h : PyHeap) : Prop :=
  ∀ p ∈ e.attrs, (h.get p.2).isSome

/-- `deepcopy(self.__dict__)`: allocate a fresh copy of every
attribute value, preserving names and order. -/
def deepcopyAttrs (h : PyHeap) : List (String × Nat) → PyHeap × List (String × Nat)
  | [] => (h, [])
  | (n, r) :: rest =>
    let v := (h.get r).getD (.prim (.pint 0))
    let (h1, r1) := h.alloc v
    let (h2, rest1) := deepcopyAttrs h1 rest
    (h2, (n, r1) :: rest1)

/-- Update an association list at a name, appending when absent
(Python `dict.update` / item assignment). -/
def setAttr (attrs : List (String × Nat)) (n : String) (r : Nat) :
    List (String × Nat) :=
  if attrs.any (fun p => p.1 == n) then
    attrs.map (fun p => if p.1 == n then (n, r) else p)
  else attrs ++ [(n, r)]

def lookupAttr (attrs : List (String × Nat)) (n : String) : Option Nat :=
  (attrs.find? (fun p => p.1 == n)).map (fun p => p.2)

/-- `copy_with`: deep-copy the attribute dictionary, then rebind every
overridden name to the given value (allocated fresh), and build the new
entity. -/
def copyWith (h : PyHeap) (e : PyEntityObj) (ov : List (String × PyObjVal)) :
    PyHeap × PyEntityObj :=
  let (h1, attrs1) := deepcopyAttrs h e.attrs
  let (h2, attrs2) := ov.foldl
    (fun st p =>
      let (hh, aa) := st
      let (hh1, r) := hh.alloc p.2
      (hh1, setAttr aa p.1 r))
    (h1, attrs1)
  (h2, ⟨attrs2⟩)

/-- Python `set.update` (insertion-ordered, deduplicating) and
`dict.update` (override by key, append new keys). -/
def pySetUnion (cur xs : List PyVal) : List PyVal :=
  xs.foldl (fun acc x => if acc.contains x then acc else acc ++ [x]) cur

def pyDictUpdate (cur xs : List (PyVal × PyVal)) : List (PyVal × PyVal) :=
  xs.foldl
    (fun acc kv =>
      if acc.any (fun p => p.1 == kv.1) then
        acc.map (fun p => if p.1 == kv.1 then kv else p)
      else acc ++ [kv])
    cur

/-- One step of the `copy_and_extend_with` loop on the copied
dictionary: sets and dicts are updated in place, tuples and lists are
rebound to the concatenation, anything else (and any new name) is
overridden/bound to the given value.  A shape mismatch between a
set/dict and its extension models the `TypeError` Python's `update`
would raise. -/
def extendStep (st : PyHeap × List (String × Nat)) (p : String × PyObjVal) :
    Except ConvError (PyHeap × List (String × Nat)) :=
  let (h, attrs) := st
  match lookupAttr attrs p.1 with
  | some r =>
    match h.get r, p.2 with
    | some (.pset cur), .pset xs =>
        .ok (h.setObj r (.pset (pySetUnion cur xs)), attrs)
    | some (.pset _), _ => .error .typeError
    | some (.pdict cur), .pdict xs =>
        .ok (h.setObj r (.pdict (pyDictUpdate cur xs)), attrs)
    | some (.pdict _), _ => .error .typeError
    | some (.ptup cur), .ptup xs =>
        let (h1, r1) := h.alloc (.ptup (cur ++ xs))
        .ok (h1, setAttr attrs p.1 r1)
    | some (.ptup _), _ => .error .typeError
    | some (.plist cur), .plist xs =>
        let (h1, r1) := h.alloc (.plist (cur ++ xs))
        .ok (h1, setAttr attrs p.1 r1)
    | some (.plist _), _ => .error .typeError
    | _, _ =>
        let (h1, r1) := h.alloc p.2
        .ok (h1, setAttr attrs p.1 r1)
  | none =>
      let (h1, r1) := h.alloc p.2
      .ok (h1, setAttr attrs p.1 r1)

/-- `copy_and_extend_with`. -/
def copyAndExtendWith (h : PyHeap) (e : PyEntityObj)
    (ext : List (String × PyObjVal)) :
    Except ConvError (PyHeap × PyEntityObj) :=
  let (h1, attrs1) := deepcopyAttrs h e.attrs
  match ext.foldlM extendStep (h1, attrs1) with
  | .error er => .error er
  | .ok (h2, attrs2) => .ok (h2, ⟨attrs2⟩)

/-- The value an entity's attribute denotes. -/
def attrVal (h : PyHeap) (e : PyEntityObj) (n : String) : Option PyObjVal :=
  match lookupAttr e.attrs n with
  | none => none
  | some r => h.get r

/-- Python `==` between two entities of the same dataclass: the
attribute dictionaries carry the same names in order and the denoted
values are equal. -/
def entityValEq (h1 : PyHeap) (e1 : PyEntityObj) (h2 : PyHeap)
    (e2 : PyEntityObj) : Prop :=
  e1.attrs.map Prod.fst = e2.attrs.map Prod.fst ∧
    ∀ n, attrVal h1 e1 n = attrVal h2 e2 n

/-
Claim theorems.
-/

def exceptDecEq {ε α : Type} [DecidableEq ε] [DecidableEq α] :
    DecidableEq (Except ε α)
  | .ok a, .ok b =>
    match decEq a b with
    | isTrue h => isTrue (by rw [h])
    | isFalse h => isFalse (by intro hh; cases hh; exact h rfl)
  | .error a, .error b =>
    match decEq a b with
    | isTrue h => isTrue (by rw [h])
    | isFalse h => isFalse (by intro hh; cases hh; exact h rfl)
  | .ok _, .error _ => isFalse (by intro hh; cases hh)
  | .error _, .ok _ => isFalse (by intro hh; cases hh)

instance {ε α : Type} [DecidableEq ε] [DecidableEq α] :
    DecidableEq (Except ε α) := exceptDecEq

def c6sym : HtnSymbol := ⟨.prim, "f"⟩
def c6x : HtnTypedObject := { cls := .var, value := .pstr "a", tpe := .mk "t" none }
def c6y : HtnTypedObject := { cls := .var, value := .pstr "b", tpe := .mk "t" none }
def c6p : HtnParametricSymbol := ⟨c6sym, [c6x, c6x]⟩
def c6q : HtnParametricSymbol := ⟨c6sym, [c6x, c6y]⟩

/-- C6 counterexample: `HtnParametricSymbol.__eq__` only requires the
LEFT operand's parameters to find equal counterparts, so with equal
lengths `f(a, a) == f(a, b)` holds while `f(a, b) == f(a, a)` fails —
equality is not symmetric and the right side's parameters need not be
matched, contradicting the claim. -/
theorem c6_param_set_equality_counterexample :
    psEq c6p c6q = true ∧ psEq c6q c6p = false := by decide

/-- C6 amended: `p == q` holds exactly when the symbols' names are
equal, the parameter lists have equal length, and every parameter of
`p` (the left operand only) finds an `==`-equal counterpart among `q`'s
parameters; the relation is not symmetric in general. -/
theorem c6_param_set_equality_amended (p q : HtnParametricSymbol) :
    psEq p q = true ↔
      (p.symbol.name = q.symbol.name ∧ p.params.length = q.params.length ∧
        ∀ a ∈ p.params, ∃ b ∈ q.params, pyEq a b = true) := by
  simp [psEq, pySymEq, paramsSetMatch, List.all_eq_true, List.any_eq_true,
    and_assoc]

/-- Witness: the amended equivalence applied at a concrete pair. -/
theorem c6_param_set_equality_witness : psEq c6p c6q = true :=
  (c6_param_set_equality_amended c6p c6q).mpr (by decide)

def c10obj : HtnTypedObject := { cls := .obj, value := .pstr "t0", tpe := htnTimepointType }
def c10tp : HtnTypedObject := { cls := .tp, value := .pstr "t0", tpe := htnTimepointType }

/-- C10 counterexample: at the claim's own instance — a bare
`HtnTypedObject` with type `__timepoint__` against an `HtnTimepoint`
with the same value and zero delay — Python's rich-comparison dispatch
gives the timepoint's stricter `__eq__` priority (its class is a proper
subclass of the left operand's), so the comparison is `False` in BOTH
directions; the claimed one-sided equality never occurs. -/
theorem c10_typed_object_equality_counterexample :
    pyEq c10obj c10tp = false ∧ pyEq c10tp c10obj = false := by decide

/-- C10 amended: `HtnVariable(v, T) == HtnConstant(v, T)` is `True` in
both directions and each satisfies set-membership against the other,
but a bare typed object never equals a bare `HtnTimepoint` in either
direction: the timepoint's `__eq__` (which requires the other side to
be a timepoint) runs first by the subclass-priority rule. -/
theorem c10_typed_object_equality_amended (v : PyVal) (T : HtnType) (d : Rat) :
    pyEq { cls := .var, value := v, tpe := T } { cls := .cst, value := v, tpe := T } = true ∧
    pyEq { cls := .cst, value := v, tpe := T } { cls := .var, value := v, tpe := T } = true ∧
    pyMem objMatch { cls := .cst, value := v, tpe := T }
      [{ cls := .var, value := v, tpe := T }] = true ∧
    pyMem objMatch { cls := .var, value := v, tpe := T }
      [{ cls := .cst, value := v, tpe := T }] = true ∧
    pyEq { cls := .obj, value := v, tpe := T }
      { cls := .tp, value := v, tpe := T, delay := d } = false ∧
    pyEq { cls := .tp, value := v, tpe := T, delay := d }
      { cls := .obj, value := v, tpe := T } = false := by
  refine ⟨?_, ?_, ?_, ?_, ?_, ?_⟩ <;>
    simp [pyEq, pyMem, objMatch, pyHashEq, properSubclass, eqMethod,
      typedObjEqBody, pyValEq_refl, isTimepointCls]

def c3sv : HtnStateVariable := ⟨⟨.sv, "at"⟩, [], htnBoolean⟩
def c3svInt : HtnStateVariable := ⟨⟨.sv, "count"⟩, [], htnInteger⟩
def c3start : HtnTypedObject :=
  { cls := .varTp, value := .pstr "?ts", tpe := htnTimepointType }
def c3stop : HtnTypedObject :=
  { cls := .varTp, value := .pstr "?te", tpe := htnTimepointType }
def c3interval : HtnTemporalInterval := ⟨c3start, c3stop⟩

/-- C3 counterexample: `dirac` subtracts ε from the WHOLE interval
(`HtnTemporalInterval.__sub__` shifts both endpoints), so at a concrete
boolean state variable the first effect's interval is
`[start − ε, end − ε]`, which differs from the claimed
`[start, end − ε]`. -/
theorem c3_dirac_counterexample :
    dirac c3sv htnTrue c3interval =
      .ok (⟨c3sv, htnTrue,
              ⟨tpAdd c3start (-htnEpsilon), tpAdd c3stop (-htnEpsilon)⟩⟩,
           ⟨c3sv, htnFalse, c3interval⟩) ∧
    (⟨tpAdd c3start (-htnEpsilon), tpAdd c3stop (-htnEpsilon)⟩ :
        HtnTemporalInterval)
      ≠ ⟨c3interval.start, tpAdd c3interval.stop (-htnEpsilon)⟩ := by
  constructor
  · rfl
  · intro h
    have h2 := congrArg (fun i => i.start.delay) h
    simp only [tpAdd] at h2
    norm_num [c3start, c3interval, htnEpsilon, htnTimeScale] at h2

/-- C3 amended: for a boolean state variable, `dirac(sv, value, I)`
returns `(effect_before, effect_after)` where `effect_before` asserts
`value` on `I − ε` (BOTH endpoints shifted down by ε) and
`effect_after` asserts the opposition value on `I` unshifted; the
opposition of `HTN_TRUE` is `HTN_FALSE` and vice versa; a non-boolean
state variable raises the typed argument error. -/
theorem c3_dirac_amended (sv : HtnStateVariable) (value : HtnTypedObject)
    (interval : HtnTemporalInterval) :
    (sv.tpe = htnBoolean →
      dirac sv value interval =
        .ok (⟨sv, value,
                ⟨tpAdd interval.start (-htnEpsilon), tpAdd interval.stop (-htnEpsilon)⟩⟩,
             ⟨sv, oppositionValue value, interval⟩)) ∧
    (sv.tpe ≠ htnBoolean → dirac sv value interval = .error .typeError) ∧
    oppositionValue htnTrue = htnFalse ∧ oppositionValue htnFalse = htnTrue := by
  refine ⟨?_, ?_, rfl, rfl⟩
  · intro h
    simp [dirac, h, intervalSub, intervalAdd]
  · intro h
    simp [dirac, h]

/-- Witness for the amended C3 theorem at concrete boolean and integer
state variables. -/
theorem c3_dirac_witness :
    dirac c3sv htnTrue c3interval =
      .ok (⟨c3sv, htnTrue,
              ⟨tpAdd c3interval.start (-htnEpsilon),
               tpAdd c3interval.stop (-htnEpsilon)⟩⟩,
           ⟨c3sv, oppositionValue htnTrue, c3interval⟩) ∧
    dirac c3svInt htnTrue c3interval = .error .typeError :=
  ⟨(c3_dirac_amended c3sv htnTrue c3interval).1 (by decide),
   (c3_dirac_amended c3svInt htnTrue c3interval).2.1 (by decide)⟩

def tLoc : HtnType := .mk "location" none
def c4a : HtnTypedObject := { cls := .cst, value := .pstr "L0", tpe := tLoc }
def c4b : HtnTypedObject := { cls := .cst, value := .pstr "L1", tpe := tLoc }
def c4ts : HtnTypedObject :=
  { cls := .varTp, value := .pstr "?ts", tpe := htnTimepointType }
def c4te : HtnTypedObject :=
  { cls := .varTp, value := .pstr "?te", tpe := htnTimepointType }
def c4interval : HtnTemporalInterval := ⟨c4ts, c4te⟩
def c4p : HtnPrimitiveTask :=
  { symbol := ⟨.prim, "move"⟩, params := [c4a, c4b], interval := c4interval }
def c4q : HtnPrimitiveTask :=
  { symbol := ⟨.prim, "move"⟩, params := [c4b, c4a], interval := c4interval }
def c4cp : ChroniclesProblem :=
  { symbolTableCreated := true, contextCreated := true,
    problem := { stCreated := true, ctxCreated := true },
    symbols := [⟨.prim, "move"⟩], actions := [c4p] }

/-- C4 counterexample: the action `c4q` is Python-`==`-equal to the
registered action `c4p` (its parameter-set equality ignores order), but
the registry membership test hashes the ORDERED parameter tuple, so
`add_action` misses the early return: the registry grows from one to
two actions and the builder's `add_action` is invoked again. -/
theorem c4_idempotence_counterexample :
    primPyEq c4q c4p = true ∧
    pyMem actionMatch c4q c4cp.actions = false ∧
    (c4cp.addAction c4q).map (fun cp2 => cp2.actions.length) = .ok 2 ∧
    (c4cp.addAction c4q).map (fun cp2 => cp2.problem.calls.length) = .ok 1 ∧
    c4cp.actions.length = 1 ∧ c4cp.problem.calls.length = 0 := by
  refine ⟨by decide, by decide, rfl, rfl, rfl, rfl⟩

/-- C4 amended: each `add_*` operation IS a no-op — registry untouched,
no builder call, no error — whenever the membership test of the
corresponding registry (Python `set`/`in` semantics: hash equality plus
`==`) finds the element; a merely `==`-equal element whose hash tuple
differs (such as an action with permuted parameters) is re-registered
instead. -/
theorem c4_idempotent_reregistration :
    (∀ (cp : ChroniclesProblem) (t : HtnType),
      pyMem typeMatch t cp.types = true → cp.addType t = cp) ∧
    (∀ (cp : ChroniclesProblem) (s : HtnSymbol) (st : ChronicleSymbolType)
        (ht : Option HtnType),
      pyMem symMatch s cp.symbols = true → cp.addSymbol s st ht = .ok cp) ∧
    (∀ (cp : ChroniclesProblem) (c : HtnTypedObject),
      pyMem objMatch c cp.constants = true → cp.addConstant c = .ok cp) ∧
    (∀ (cp : ChroniclesProblem) (v : HtnTypedObject),
      pyMem objMatch v cp.variablesReg = true → cp.addVariable v = cp) ∧
    (∀ (cp : ChroniclesProblem) (a : HtnPrimitiveTask),
      pyMem actionMatch a cp.actions = true → cp.addAction a = .ok cp) ∧
    (∀ (cp : ChroniclesProblem) (m : HtnMethod),
      pyMem methodMatch m cp.methods = true → cp.addMethod m = .ok cp) := by
  refine ⟨?_, ?_, ?_, ?_, ?_, ?_⟩
  · intro cp t h
    cases t with
    | mk n p => simp [ChroniclesProblem.addType, h]
  · intro cp s st ht h
    simp [ChroniclesProblem.addSymbol, h]
  · intro cp c h
    simp [ChroniclesProblem.addConstant, h]
  · intro cp v h
    simp [ChroniclesProblem.addVariable, h]
  · intro cp a h
    simp [ChroniclesProblem.addAction, h]
  · intro cp m h
    simp [ChroniclesProblem.addMethod, h]

def c4wVar : HtnTypedObject := { cls := .var, value := .pstr "?x", tpe := tLoc }
def c4wMethod : HtnMethod :=
  { task := { symbol := ⟨.comp, "go"⟩, params := [], interval := c4interval },
    taskNetwork := {}, symbol := ⟨.method, "m-go"⟩ }
def c4wcp : ChroniclesProblem :=
  { types := [tLoc], symbols := [⟨.prim, "move"⟩], constants := [c4a],
    variablesReg := [c4wVar], actions := [c4p], methods := [c4wMethod] }

/-- Witness: re-registering each kind of already-registered element
leaves the concrete pipeline state unchanged. -/
theorem c4_idempotence_witness :
    c4wcp.addType tLoc = c4wcp ∧
    c4wcp.addSymbol ⟨.prim, "move"⟩ .action none = .ok c4wcp ∧
    c4wcp.addConstant c4a = .ok c4wcp ∧
    c4wcp.addVariable c4wVar = c4wcp ∧
    c4wcp.addAction c4p = .ok c4wcp ∧
    c4wcp.addMethod c4wMethod = .ok c4wcp :=
  ⟨c4_idempotent_reregistration.1 c4wcp tLoc (by decide),
   c4_idempotent_reregistration.2.1 c4wcp ⟨.prim, "move"⟩ .action none (by decide),
   c4_idempotent_reregistration.2.2.1 c4wcp c4a (by decide),
   c4_idempotent_reregistration.2.2.2.1 c4wcp c4wVar (by decide),
   c4_idempotent_reregistration.2.2.2.2.1 c4wcp c4p (by decide),
   c4_idempotent_reregistration.2.2.2.2.2 c4wcp c4wMethod (by decide)⟩

theorem foldl_pres (g : β → α → β) (P : β → Prop)
    (hmono : ∀ b a, P b → P (g b a)) (l : List α) (b : β) (h : P b) :
    P (l.foldl g b) := by
  induction l generalizing b with
  | nil => exact h
  | cons x xs ih => exact ih (g b x) (hmono b x h)

theorem foldl_estab (g : β → α → β) (P : β → Prop) (x : α)
    (hmono : ∀ b a, P b → P (g b a)) (hx : ∀ b, P (g b x)) (l : List α)
    (b : β) (h : x ∈ l) : P (l.foldl g b) := by
  induction l generalizing b with
  | nil => cases h
  | cons y ys ih =>
    rcases List.mem_cons.mp h with h1 | h1
    · subst h1
      exact foldl_pres g P hmono ys (g b x) (hx b)
    · exact ih (g b y) h1

/-- Component-wise monotonicity of one language with respect to
another: every membership that holds in the first keeps holding. -/
def langMono (L L2 : HtnLanguage) : Prop :=
  (∀ x, pyMem objMatch x L.Vars = true → pyMem objMatch x L2.Vars = true) ∧
  (∀ x, pyMem objMatch x L.Csts = true → pyMem objMatch x L2.Csts = true) ∧
  (∀ s, pyMem symMatch s L.StVars = true → pyMem symMatch s L2.StVars = true) ∧
  (∀ s, pyMem symMatch s L.Prims = true → pyMem symMatch s L2.Prims = true) ∧
  (∀ s, pyMem symMatch s L.Comps = true → pyMem symMatch s L2.Comps = true) ∧
  (∀ l, pyMem labMatch l L.Labs = true → pyMem labMatch l L2.Labs = true)

theorem langMono_refl (L : HtnLanguage) : langMono L L :=
  ⟨fun _ h => h, fun _ h => h, fun _ h => h, fun _ h => h, fun _ h => h,
   fun _ h => h⟩

theorem langMono_trans {L1 L2 L3 : HtnLanguage} (h1 : langMono L1 L2)
    (h2 : langMono L2 L3) : langMono L1 L3 :=
  ⟨fun x h => h2.1 x (h1.1 x h),
   fun x h => h2.2.1 x (h1.2.1 x h),
   fun s h => h2.2.2.1 s (h1.2.2.1 s h),
   fun s h => h2.2.2.2.1 s (h1.2.2.2.1 s h),
   fun s h => h2.2.2.2.2.1 s (h1.2.2.2.2.1 s h),
   fun l h => h2.2.2.2.2.2 l (h1.2.2.2.2.2 l h)⟩

theorem langAddTask_mono (L : HtnLanguage) (t : HtnTask) :
    langMono L (L.addTask t) := by
  cases t with
  | prim a =>
    refine ⟨?_, ?_, ?_, ?_, ?_, ?_⟩ <;> intro x h <;>
      simp only [HtnLanguage.addTask]
    · exact pyMem_foldl_pySetAdd_mono _ _ _ x h
    · exact pyMem_foldl_pySetAdd_mono _ _ _ x h
    · exact pyMem_foldl_pySetAdd_mono _ _ _ x h
    · exact pyMem_pySetAdd_mono _ _ x _ h
    · exact h
    · exact h
  | comp c =>
    refine ⟨?_, ?_, ?_, ?_, ?_, ?_⟩ <;> intro x h <;>
      simp only [HtnLanguage.addTask]
    · exact pyMem_foldl_pySetAdd_mono _ _ _ x h
    · exact pyMem_foldl_pySetAdd_mono _ _ _ x h
    · exact h
    · exact h
    · exact pyMem_pySetAdd_mono _ _ x _ h
    · exact h

theorem labsAdd_mono (L : HtnLanguage) (lab : HtnLabel) :
    langMono L { L with Labs := pySetAdd labMatch L.Labs lab } :=
  ⟨fun _ h => h, fun _ h => h, fun _ h => h, fun _ h => h, fun _ h => h,
   fun l h => pyMem_pySetAdd_mono _ _ l _ h⟩

theorem stvarsFold_mono (L : HtnLanguage) (syms : List HtnSymbol) :
    langMono L { L with StVars := syms.foldl (pySetAdd symMatch) L.StVars } :=
  ⟨fun _ h => h, fun _ h => h,
   fun s h => pyMem_foldl_pySetAdd_mono _ _ _ s h,
   fun _ h => h, fun _ h => h, fun _ h => h⟩

theorem langMethodStep_mono (b : HtnLanguage) (lmp : HtnLabelMappingPair) :
    langMono b (langMethodStep b lmp) :=
  langMono_trans (labsAdd_mono b lmp.label) (langAddTask_mono _ lmp.task)

theorem addTask_Labs (L : HtnLanguage) (t : HtnTask) :
    (L.addTask t).Labs = L.Labs := by
  cases t <;> rfl

theorem langAddTask_prim_symbol (L : HtnLanguage) (a : HtnPrimitiveTask) :
    pyMem symMatch a.symbol (L.addTask (.prim a)).Prims = true := by
  simp only [HtnLanguage.addTask]
  exact pyMem_pySetAdd_self _ _ _ (symMatch_refl _)

theorem langAddTask_comp_symbol (L : HtnLanguage) (c : HtnCompoundTask) :
    pyMem symMatch c.symbol (L.addTask (.comp c)).Comps = true := by
  simp only [HtnLanguage.addTask]
  exact pyMem_pySetAdd_self _ _ _ (symMatch_refl _)

theorem langAddTask_Vars (L : HtnLanguage) (t : HtnTask) (p : HtnTypedObject)
    (hp : p ∈ t.params) (hv : isVariableCls p.cls = true) :
    pyMem objMatch p (L.addTask t).Vars = true := by
  have hmem : p ∈ taskVariables t := List.mem_filter.mpr ⟨hp, hv⟩
  cases t with
  | prim a =>
    simp only [HtnLanguage.addTask]
    exact pyMem_foldl_pySetAdd_of_mem _ _ _ p (objMatch_refl p) hmem
  | comp c =>
    simp only [HtnLanguage.addTask]
    exact pyMem_foldl_pySetAdd_of_mem _ _ _ p (objMatch_refl p) hmem

theorem langAddTask_Csts (L : HtnLanguage) (t : HtnTask) (p : HtnTypedObject)
    (hp : p ∈ t.params) (hc : isConstantCls p.cls = true) :
    pyMem objMatch p (L.addTask t).Csts = true := by
  have hmem : p ∈ taskConstants t := List.mem_filter.mpr ⟨hp, hc⟩
  cases t with
  | prim a =>
    simp only [HtnLanguage.addTask]
    exact pyMem_foldl_pySetAdd_of_mem _ _ _ p (objMatch_refl p) hmem
  | comp c =>
    simp only [HtnLanguage.addTask]
    exact pyMem_foldl_pySetAdd_of_mem _ _ _ p (objMatch_refl p) hmem

theorem langAddTask_prim_StVars (L : HtnLanguage) (a : HtnPrimitiveTask)
    (sv : HtnStateVariable) (h : sv ∈ a.stateVariables) :
    pyMem symMatch sv.symbol (L.addTask (.prim a)).StVars = true := by
  simp only [HtnLanguage.addTask]
  exact pyMem_foldl_pySetAdd_of_mem _ _ _ _ (symMatch_refl _)
    (List.mem_map_of_mem _ h)

theorem langAddMethod_facts (L : HtnLanguage) (m : HtnMethod) :
    pyMem symMatch m.task.symbol (L.addMethod m).Comps = true ∧
    (∀ p ∈ m.task.params, isVariableCls p.cls = true →
      pyMem objMatch p (L.addMethod m).Vars = true) ∧
    (∀ p ∈ m.task.params, isConstantCls p.cls = true →
      pyMem objMatch p (L.addMethod m).Csts = true) ∧
    (∀ sv ∈ m.stateVariables,
      pyMem symMatch sv.symbol (L.addMethod m).StVars = true) ∧
    (∀ lmp ∈ m.taskNetwork.labelMapping,
      pyMem labMatch lmp.label (L.addMethod m).Labs = true ∧
      (∀ a, lmp.task = .prim a →
        pyMem symMatch a.symbol (L.addMethod m).Prims = true) ∧
      (∀ c, lmp.task = .comp c →
        pyMem symMatch c.symbol (L.addMethod m).Comps = true) ∧
      (∀ p ∈ lmp.task.params, isVariableCls p.cls = true →
        pyMem objMatch p (L.addMethod m).Vars = true) ∧
      (∀ p ∈ lmp.task.params, isConstantCls p.cls = true →
        pyMem objMatch p (L.addMethod m).Csts = true)) := by
  have hstep : ∀ (b : HtnLanguage) (lmp : HtnLabelMappingPair),
      langMono b (langMethodStep b lmp) := langMethodStep_mono
  have hfold : ∀ (l : List HtnLabelMappingPair) (b : HtnLanguage),
      langMono b (l.foldl langMethodStep b) := by
    intro l b
    exact foldl_pres langMethodStep (fun x => langMono b x)
      (fun bb aa hh => langMono_trans hh (hstep bb aa)) l b (langMono_refl b)
  have hL2fin : langMono
      { L.addTask (.comp m.task) with
        StVars := (m.stateVariables.map (fun sv => sv.symbol)).foldl
          (pySetAdd symMatch) (L.addTask (.comp m.task)).StVars }
      (L.addMethod m) := hfold _ _
  have hL1fin : langMono (L.addTask (.comp m.task)) (L.addMethod m) :=
    langMono_trans (stvarsFold_mono _ _) hL2fin
  refine ⟨?_, ?_, ?_, ?_, ?_⟩
  · exact hL1fin.2.2.2.2.1 _ (langAddTask_comp_symbol L m.task)
  · intro p hp hv
    exact hL1fin.1 p (langAddTask_Vars L (.comp m.task) p hp hv)
  · intro p hp hc
    exact hL1fin.2.1 p (langAddTask_Csts L (.comp m.task) p hp hc)
  · intro sv hsv
    refine hL2fin.2.2.1 _ ?_
    exact pyMem_foldl_pySetAdd_of_mem _ _ _ _ (symMatch_refl _)
      (List.mem_map_of_mem _ hsv)
  · intro lmp hlmp
    refine ⟨?_, ?_, ?_, ?_, ?_⟩
    · exact foldl_estab langMethodStep
        (fun Lx => pyMem labMatch lmp.label Lx.Labs = true) lmp
        (fun b a h => (hstep b a).2.2.2.2.2 _ h)
        (fun b => by
          simp only [langMethodStep, addTask_Labs]
          exact pyMem_pySetAdd_self _ _ _ (labMatch_refl _))
        _ _ hlmp
    · intro a ha
      exact foldl_estab langMethodStep
        (fun Lx => pyMem symMatch a.symbol Lx.Prims = true) lmp
        (fun b x h => (hstep b x).2.2.2.1 _ h)
        (fun b => by
          simp only [langMethodStep, ha]
          exact langAddTask_prim_symbol _ a)
        _ _ hlmp
    · intro c hc
      exact foldl_estab langMethodStep
        (fun Lx => pyMem symMatch c.symbol Lx.Comps = true) lmp
        (fun b x h => (hstep b x).2.2.2.2.1 _ h)
        (fun b => by
          simp only [langMethodStep, hc]
          exact langAddTask_comp_symbol _ c)
        _ _ hlmp
    · intro p hp hv
      exact foldl_estab langMethodStep
        (fun Lx => pyMem objMatch p Lx.Vars = true) lmp
        (fun b x h => (hstep b x).1 _ h)
        (fun b => langAddTask_Vars _ lmp.task p hp hv)
        _ _ hlmp
    · intro p hp hc
      exact foldl_estab langMethodStep
        (fun Lx => pyMem objMatch p Lx.Csts = true) lmp
        (fun b x h => (hstep b x).2.1 _ h)
        (fun b => langAddTask_Csts _ lmp.task p hp hc)
        _ _ hlmp

theorem domainAddTask_L (D : HtnDomain) (t : HtnTask) :
    (D.addTask t).L = D.L.addTask t := by
  cases t <;> rfl

theorem domainMethodStep_L (D : HtnDomain) (lmp : HtnLabelMappingPair) :
    (domainMethodStep D lmp).L = D.L.addTask lmp.task :=
  domainAddTask_L D lmp.task

theorem domainAddMethod_L_mono (D : HtnDomain) (m : HtnMethod) :
    langMono (D.L.addMethod m) (D.addMethod m).L := by
  refine foldl_pres domainMethodStep
    (fun Dx => langMono (D.L.addMethod m) Dx.L) ?_ _ _ (langMono_refl _)
  intro b a h
  rw [domainMethodStep_L]
  exact langMono_trans h (langAddTask_mono b.L a.task)

/-- Rendering of the claim's phrase "the Domain's Language contains the
added element's symbol": membership, under Python set semantics, in one
of the Language's symbol-holding components (`StVars`, `Prims`,
`Comps`; the Language has no other component that could hold a symbol). -/
def langMentionsSymbol (L : HtnLanguage) (s : HtnSymbol) : Bool :=
  pyMem symMatch s L.StVars || pyMem symMatch s L.Prims || pyMem symMatch s L.Comps

def c5move : HtnPrimitiveTask :=
  { symbol := ⟨.prim, "move"⟩, params := [], interval := c4interval }
def c5task : HtnCompoundTask :=
  { symbol := ⟨.comp, "go"⟩, params := [], interval := c4interval }
def c5m : HtnMethod :=
  { task := c5task,
    taskNetwork := { labelMapping := [⟨⟨"l1"⟩, .prim c5move⟩] },
    symbol := ⟨.method, "m-go"⟩ }
def c5D : HtnDomain := {}

/-- C5 counterexample: after adding a concrete method to an empty
domain the method is registered in `M`, but its own symbol (`m-go`)
appears in none of the Language's components — `HtnLanguage` has no
method-symbol set and `add_method` never registers the method's symbol,
so the Language does not contain the added element's symbol. -/
theorem c5_language_closure_counterexample :
    (c5D.addMethod c5m).M.length = 1 ∧
    langMentionsSymbol (c5D.addMethod c5m).L c5m.symbol = false := by
  refine ⟨rfl, by decide⟩

/-- C5 amended: adding a task to a domain registers the task's symbol
(`Prims`/`Comps` by kind), its variable parameters in `Vars`, its
constant parameters in `Csts` and (for primitive tasks) the state
variables of its conditions and effects in `StVars`; adding a method
registers the achieved task's symbol, the task's and every subtask's
variable/constant parameters, the condition state-variable symbols, and
every network label in `Labs`, with each subtask's symbol registered as
well — but NOT the method's own symbol, for which the Language has no
component. -/
theorem c5_language_closure_amended :
    (∀ (D : HtnDomain) (t : HtnTask),
      (∀ a, t = .prim a →
        pyMem symMatch a.symbol (D.addTask t).L.Prims = true) ∧
      (∀ c, t = .comp c →
        pyMem symMatch c.symbol (D.addTask t).L.Comps = true) ∧
      (∀ p ∈ t.params, isVariableCls p.cls = true →
        pyMem objMatch p (D.addTask t).L.Vars = true) ∧
      (∀ p ∈ t.params, isConstantCls p.cls = true →
        pyMem objMatch p (D.addTask t).L.Csts = true) ∧
      (∀ a, t = .prim a → ∀ sv ∈ a.stateVariables,
        pyMem symMatch sv.symbol (D.addTask t).L.StVars = true)) ∧
    (∀ (D : HtnDomain) (m : HtnMethod),
      pyMem symMatch m.task.symbol (D.addMethod m).L.Comps = true ∧
      (∀ p ∈ m.task.params, isVariableCls p.cls = true →
        pyMem objMatch p (D.addMethod m).L.Vars = true) ∧
      (∀ p ∈ m.task.params, isConstantCls p.cls = true →
        pyMem objMatch p (D.addMethod m).L.Csts = true) ∧
      (∀ sv ∈ m.stateVariables,
        pyMem symMatch sv.symbol (D.addMethod m).L.StVars = true) ∧
      (∀ lmp ∈ m.taskNetwork.labelMapping,
        pyMem labMatch lmp.label (D.addMethod m).L.Labs = true ∧
        (∀ a, lmp.task = .prim a →
          pyMem symMatch a.symbol (D.addMethod m).L.Prims = true) ∧
        (∀ c, lmp.task = .comp c →
          pyMem symMatch c.symbol (D.addMethod m).L.Comps = true) ∧
        (∀ p ∈ lmp.task.params, isVariableCls p.cls = true →
          pyMem objMatch p (D.addMethod m).L.Vars = true) ∧
        (∀ p ∈ lmp.task.params, isConstantCls p.cls = true →
          pyMem objMatch p (D.addMethod m).L.Csts = true))) := by
  constructor
  · intro D t
    refine ⟨?_, ?_, ?_, ?_, ?_⟩
    · intro a ha
      subst ha
      rw [domainAddTask_L]
      exact langAddTask_prim_symbol D.L a
    · intro c hc
      subst hc
      rw [domainAddTask_L]
      exact langAddTask_comp_symbol D.L c
    · intro p hp hv
      rw [domainAddTask_L]
      exact langAddTask_Vars D.L t p hp hv
    · intro p hp hc
      rw [domainAddTask_L]
      exact langAddTask_Csts D.L t p hp hc
    · intro a ha sv hsv
      subst ha
      rw [domainAddTask_L]
      exact langAddTask_prim_StVars D.L a sv hsv
  · intro D m
    have hf := langAddMethod_facts D.L m
    have hm := domainAddMethod_L_mono D m
    refine ⟨?_, ?_, ?_, ?_, ?_⟩
    · exact hm.2.2.2.2.1 _ hf.1
    · intro p hp hv
      exact hm.1 p (hf.2.1 p hp hv)
    · intro p hp hc
      exact hm.2.1 p (hf.2.2.1 p hp hc)
    · intro sv hsv
      exact hm.2.2.1 _ (hf.2.2.2.1 sv hsv)
    · intro lmp hlmp
      obtain ⟨hl, hpr, hco, hv2, hc2⟩ := hf.2.2.2.2 lmp hlmp
      exact ⟨hm.2.2.2.2.2 _ hl,
             fun a ha => hm.2.2.2.1 _ (hpr a ha),
             fun c hcq => hm.2.2.2.2.1 _ (hco c hcq),
             fun p hp hvv => hm.1 p (hv2 p hp hvv),
             fun p hp hcc => hm.2.1 p (hc2 p hp hcc)⟩

/-- Witness: the amended closure facts at a concrete domain, task and
method. -/
theorem c5_language_closure_witness :
    pyMem symMatch ⟨.prim, "move"⟩ (c5D.addTask (.prim c5move)).L.Prims = true ∧
    pyMem labMatch ⟨"l1"⟩ (c5D.addMethod c5m).L.Labs = true ∧
    pyMem symMatch ⟨.comp, "go"⟩ (c5D.addMethod c5m).L.Comps = true :=
  ⟨(c5_language_closure_amended.1 c5D (.prim c5move)).1 c5move rfl,
   ((c5_language_closure_amended.2 c5D c5m).2.2.2.2 ⟨⟨"l1"⟩, .prim c5move⟩
      (by decide)).1,
   (c5_language_closure_amended.2 c5D c5m).1⟩

theorem getTimepoint_label_inj (o : HtnTypedObject) (l1 l2 : HtnLabel)
    (h : getTimepoint o (some l1) = getTimepoint o (some l2)) : l1 = l2 := by
  have hd := congrArg String.data h
  simp only [getTimepoint, labelSuffix, String.data_append] at hd
  have h1 := List.append_cancel_right hd
  have h2 := List.append_cancel_right h1
  have h3 := List.append_cancel_right h2
  have h4 := List.append_cancel_right h3
  have h5 := List.append_cancel_left h4
  cases l1 with
  | mk v1 =>
    cases l2 with
    | mk v2 =>
      simp only [HtnLabel.mk.injEq]
      cases v1 with
      | mk d1 =>
        cases v2 with
        | mk d2 =>
          simp only at h5
          rw [h5]

/-- C1: two label-mapping pairs binding distinct labels to the same
task produce temporal signatures that share the label-free signature as
a common prefix, differ only in the two label-suffixed timepoint
renderings, and are never equal as string lists. -/
theorem c1_label_disambiguation (cp : ChroniclesProblem)
    (lmp1 lmp2 : HtnLabelMappingPair) (s1 s2 : List String)
    (htask : lmp1.task = lmp2.task) (hlab : lmp1.label ≠ lmp2.label)
    (h1 : cp.getSignatureTemporalTask lmp1.task (some lmp1.label) = .ok s1)
    (h2 : cp.getSignatureTemporalTask lmp2.task (some lmp2.label) = .ok s2) :
    (∃ base, cp.getSignature lmp1.task.toEntity = .ok base ∧
      s1 = base ++
        [getTimepoint lmp1.task.interval.start (some lmp1.label),
         getTimepoint lmp1.task.interval.stop (some lmp1.label)] ∧
      s2 = base ++
        [getTimepoint lmp1.task.interval.start (some lmp2.label),
         getTimepoint lmp1.task.interval.stop (some lmp2.label)]) ∧
    s1 ≠ s2 := by
  rw [← htask] at h2
  unfold ChroniclesProblem.getSignatureTemporalTask at h1 h2
  cases hs : cp.getSignature lmp1.task.toEntity with
  | error e =>
    rw [hs] at h1
    cases h1
  | ok base =>
    rw [hs] at h1 h2
    cases h1
    cases h2
    refine ⟨⟨base, rfl, rfl, rfl⟩, ?_⟩
    intro heq
    have hcan := List.append_cancel_left heq
    simp only [getIntervalStrs, List.cons.injEq] at hcan
    exact hlab (getTimepoint_label_inj _ _ _ hcan.1)

def c1cp : ChroniclesProblem :=
  { symbolTableCreated := true, symbols := [⟨.comp, "go"⟩] }
def c1task : HtnTask :=
  .comp { symbol := ⟨.comp, "go"⟩, params := [], interval := c4interval }
def c1lmp1 : HtnLabelMappingPair := ⟨⟨"l1"⟩, c1task⟩
def c1lmp2 : HtnLabelMappingPair := ⟨⟨"l2"⟩, c1task⟩
def c1s1 : List String :=
  ["go"] ++ [getTimepoint c4interval.start (some ⟨"l1"⟩),
             getTimepoint c4interval.stop (some ⟨"l1"⟩)]
def c1s2 : List String :=
  ["go"] ++ [getTimepoint c4interval.start (some ⟨"l2"⟩),
             getTimepoint c4interval.stop (some ⟨"l2"⟩)]

/-- Witness: the disambiguation theorem at a concrete pipeline, task
and pair of distinct labels. -/
theorem c1_label_disambiguation_witness : c1s1 ≠ c1s2 :=
  (c1_label_disambiguation c1cp c1lmp1 c1lmp2 c1s1 c1s2 rfl
    (by decide) rfl rfl).2

/-- Whether a conversion result is one of the two protocol-ordering
errors. -/
def isOrderingErrorB : Except ConvError α → Bool
  | .error .uncreatedContext => true
  | .error .uncreatedSymbolTable => true
  | _ => false

theorem isOrderingErrorB_error (e : ConvError) :
    isOrderingErrorB (Except.error e : Except ConvError α) =
      (e == ConvError.uncreatedContext || e == ConvError.uncreatedSymbolTable) := by
  cases e <;> rfl

theorem getSignature_no_ordering (cp : ChroniclesProblem)
    (hst : cp.symbolTableCreated = true) (e : ParamEntity) :
    isOrderingErrorB (cp.getSignature e) = false := by
  simp only [ChroniclesProblem.getSignature, ChroniclesProblem.checkSymbol,
    ChroniclesProblem.checkSymbolTable, hst, if_true]
  by_cases hm : pyMem symMatch e.symbol cp.symbols = true
  · simp [hm, isOrderingErrorB]
  · simp [hm, isOrderingErrorB]

theorem getSignatureTemporalTask_no_ordering (cp : ChroniclesProblem)
    (hst : cp.symbolTableCreated = true) (t : HtnTask) (lab : Option HtnLabel) :
    isOrderingErrorB (cp.getSignatureTemporalTask t lab) = false := by
  unfold ChroniclesProblem.getSignatureTemporalTask
  have hsig := getSignature_no_ordering cp hst t.toEntity
  cases hs : cp.getSignature t.toEntity with
  | error er =>
    rw [hs] at hsig
    exact hsig
  | ok b => rfl

theorem getCondition_no_ordering (cp : ChroniclesProblem)
    (hst : cp.symbolTableCreated = true) (c : HtnCondition) :
    isOrderingErrorB (cp.getCondition c) = false := by
  unfold ChroniclesProblem.getCondition
  have hsig := getSignature_no_ordering cp hst (.sv c.sv)
  cases hs : cp.getSignature (.sv c.sv) with
  | error er =>
    rw [hs] at hsig
    exact hsig
  | ok b => rfl

theorem getEffect_no_ordering (cp : ChroniclesProblem)
    (hst : cp.symbolTableCreated = true) (e : HtnEffect) :
    isOrderingErrorB (cp.getEffect e) = false := by
  unfold ChroniclesProblem.getEffect
  have hsig := getSignature_no_ordering cp hst (.sv e.sv)
  cases hs : cp.getSignature (.sv e.sv) with
  | error er =>
    rw [hs] at hsig
    exact hsig
  | ok b => rfl

theorem exMapM_no_ordering (f : α → Except ConvError β) (l : List α)
    (hf : ∀ x ∈ l, isOrderingErrorB (f x) = false) :
    isOrderingErrorB (exMapM f l) = false := by
  induction l with
  | nil => rfl
  | cons x xs ih =>
    simp only [exMapM]
    cases hx : f x with
    | error e =>
      have := hf x (List.mem_cons_self x xs)
      rw [hx] at this
      simpa only [isOrderingErrorB_error] using this
    | ok y =>
      cases hxs : exMapM f xs with
      | error e =>
        have := ih (fun z hz => hf z (List.mem_cons_of_mem x hz))
        rw [hxs] at this
        exact this
      | ok ys => rfl

theorem factoryMake_no_ordering (left right : HtnTypedObject) (rel : CRel)
    (ll rr : Option HtnLabel) :
    isOrderingErrorB (factoryMake left right rel ll rr) = false := by
  unfold factoryMake
  by_cases h1 : isTimepointCls left.cls = true
  · by_cases h2 : isTimepointCls right.cls = true
    · simp [h1, h2, isOrderingErrorB]
    · simp [h1, h2, isOrderingErrorB]
  · by_cases h2 : isTimepointCls right.cls = true
    · simp [h1, h2, isOrderingErrorB]
    · by_cases h3 : ll.isSome
      · simp [h1, h2, h3, isOrderingErrorB]
      · by_cases h4 : rr.isSome
        · simp [h1, h2, h3, h4, isOrderingErrorB]
        · simp [h1, h2, h3, h4, isOrderingErrorB]

/-- After the symbol table and the context exist, `add_action` can
still fail (unregistered symbol, malformed constraint operands) but
never with a protocol-ordering error. -/
theorem addAction_no_ordering (cp : ChroniclesProblem) (a : HtnPrimitiveTask)
    (hst : cp.symbolTableCreated = true) (hctx : cp.contextCreated = true) :
    isOrderingErrorB (cp.addAction a) = false := by
  unfold ChroniclesProblem.addAction
  by_cases hmem : pyMem actionMatch a cp.actions = true
  · simp [hmem, isOrderingErrorB]
  · simp only [hmem, Bool.false_eq_true, if_false]
    have hcs : cp.checkSymbol a.symbol = .ok () ∨
        ∃ nm, cp.checkSymbol a.symbol = .error (.unregisteredSymbol nm) := by
      unfold ChroniclesProblem.checkSymbol ChroniclesProblem.checkSymbolTable
      rw [hst]
      by_cases hm : pyMem symMatch a.symbol cp.symbols = true
      · exact Or.inl (by simp [hm])
      · exact Or.inr ⟨a.symbol.name, by simp [hm]⟩
    rcases hcs with hcs | ⟨nm, hcs⟩
    · rw [hcs]
      have hcc : cp.checkContext = .ok () := by
        unfold ChroniclesProblem.checkContext
        simp [hctx]
      rw [hcc]
      have hsig := getSignatureTemporalTask_no_ordering
        { cp with actions := cp.actions ++ [a] } hst (.prim a) none
      cases hs : ChroniclesProblem.getSignatureTemporalTask
          { cp with actions := cp.actions ++ [a] } (.prim a) none with
      | error er =>
        rw [hs] at hsig
        simpa only [isOrderingErrorB_error] using hsig
      | ok sig =>
        have hconds := exMapM_no_ordering
          (ChroniclesProblem.getCondition { cp with actions := cp.actions ++ [a] })
          a.conditions
          (fun c _ => getCondition_no_ordering _ hst c)
        cases hc : exMapM
            (ChroniclesProblem.getCondition { cp with actions := cp.actions ++ [a] })
            a.conditions with
        | error er =>
          rw [hc] at hconds
          simpa only [isOrderingErrorB_error] using hconds
        | ok conds =>
          have heffs := exMapM_no_ordering
            (ChroniclesProblem.getEffect { cp with actions := cp.actions ++ [a] })
            a.effects
            (fun x _ => getEffect_no_ordering _ hst x)
          cases he : exMapM
              (ChroniclesProblem.getEffect { cp with actions := cp.actions ++ [a] })
              a.effects with
          | error er =>
            rw [he] at heffs
            simpa only [isOrderingErrorB_error] using heffs
          | ok effs =>
            by_cases hlen : effs.length > 0
            · simp only [hlen, if_true]
              have hmk := factoryMake_no_ordering a.interval.stop
                (tpAdd a.interval.start htnEpsilon) .rge none none
              cases hm2 : minDurationEps a.interval none with
              | error er =>
                unfold minDurationEps minDuration at hm2
                rw [hm2] at hmk
                simpa only [isOrderingErrorB_error] using hmk
              | ok c => rfl
            · simp only [hlen, if_false]
              rfl
    · rw [hcs]
      rfl

theorem addAction_before_context (cp : ChroniclesProblem) (a : HtnPrimitiveTask)
    (hst : cp.symbolTableCreated = true) (hctx : cp.contextCreated = false)
    (hmem : pyMem actionMatch a cp.actions = false)
    (hsym : pyMem symMatch a.symbol cp.symbols = true) :
    cp.addAction a = .error .uncreatedContext := by
  unfold ChroniclesProblem.addAction
  simp only [hmem, Bool.false_eq_true, if_false]
  have hcs : cp.checkSymbol a.symbol = .ok () := by
    unfold ChroniclesProblem.checkSymbol ChroniclesProblem.checkSymbolTable
    simp [hst, hsym]
  rw [hcs]
  have hcc : cp.checkContext = .error .uncreatedContext := by
    unfold ChroniclesProblem.checkContext
    simp [hctx]
  rw [hcc]

/-- C2: on a fresh pipeline, `create_context` before
`create_symbol_table` fails with the symbol-table ordering error (the
enforcement sits in the spec-modelled chronicles builder), and
`add_action` fails with the symbol-table ordering error; after
registering the action symbol and creating the symbol table,
`add_action` before `create_context` fails with the uncreated-context
error; after `create_symbol_table` then `create_context`, `add_action`
with a registered symbol never raises an ordering error. -/
theorem c2_phase_protocol :
    (∀ n, (freshCp n).createContext = .error .uncreatedSymbolTable) ∧
    (∀ n (a : HtnPrimitiveTask),
      (freshCp n).addAction a = .error .uncreatedSymbolTable) ∧
    (∀ (n : String) (s : HtnSymbol) (a : HtnPrimitiveTask),
      a.symbol.name = s.name →
      (((freshCp n).addSymbol s .action none).bind
        (fun cp1 => cp1.createSymbolTable.addAction a)) =
          .error .uncreatedContext) ∧
    (∀ (n : String) (s : HtnSymbol) (a : HtnPrimitiveTask),
      a.symbol.name = s.name →
      ∃ cp3, ((freshCp n).addSymbol s .action none).bind
          (fun cp1 => cp1.createSymbolTable.createContext) = .ok cp3 ∧
        isOrderingErrorB (cp3.addAction a) = false) := by
  refine ⟨fun n => rfl, fun n a => rfl, ?_, ?_⟩
  · intro n s a h
    exact addAction_before_context _ a rfl rfl rfl
      (by simp [pyMem, symMatch, pySymEq, h,
        ChroniclesProblem.createSymbolTable, freshCp])
  · intro n s a h
    refine ⟨_, rfl, ?_⟩
    exact addAction_no_ordering _ a rfl rfl

def c2sym : HtnSymbol := ⟨.prim, "move"⟩
def c2a : HtnPrimitiveTask :=
  { symbol := c2sym, params := [], interval := c4interval }

/-- Witness: the phase-protocol behaviour at a concrete pipeline and
action. -/
theorem c2_phase_protocol_witness :
    (freshCp "p").createContext = .error .uncreatedSymbolTable ∧
    (freshCp "p").addAction c2a = .error .uncreatedSymbolTable ∧
    (((freshCp "p").addSymbol c2sym .action none).bind
      (fun cp1 => cp1.createSymbolTable.addAction c2a)) =
        .error .uncreatedContext ∧
    ∃ cp3, ((freshCp "p").addSymbol c2sym .action none).bind
        (fun cp1 => cp1.createSymbolTable.createContext) = .ok cp3 ∧
      isOrderingErrorB (cp3.addAction c2a) = false :=
  ⟨c2_phase_protocol.1 "p", c2_phase_protocol.2.1 "p" c2a,
   c2_phase_protocol.2.2.1 "p" c2sym c2a rfl,
   c2_phase_protocol.2.2.2 "p" c2sym c2a rfl⟩

/-- C7: when a not-yet-registered action with timepoint interval
endpoints is lowered, the constraint list handed to the builder's
`add_action` is the rendering of the declared constraints followed by
exactly one synthesized `min_duration_eps` constraint
(`end >= start + ε`, no labels) when the action has at least one
effect, and nothing extra otherwise. -/
theorem c7_min_duration_injection (cp : ChroniclesProblem)
    (a : HtnPrimitiveTask) (cp2 : ChroniclesProblem)
    (hmem : pyMem actionMatch a cp.actions = false)
    (hts : isTimepointCls a.interval.start.cls = true)
    (hte : isTimepointCls a.interval.stop.cls = true)
    (h : cp.addAction a = .ok cp2) :
    ∃ sig conds effs,
      cp2.problem.calls = cp.problem.calls ++
        [.addAction sig
          (a.constraints.map getConstraint ++
            (if a.effects = [] then [] else
              [[getTimepoint a.interval.stop none, ">=",
                getTimepoint (tpAdd a.interval.start htnEpsilon) none]]))
          conds effs] ∧
      effs.length = a.effects.length := by
  unfold ChroniclesProblem.addAction at h
  simp only [hmem, Bool.false_eq_true, if_false] at h
  cases hcs : cp.checkSymbol a.symbol with
  | error e => rw [hcs] at h; cases h
  | ok u =>
    rw [hcs] at h
    cases hcc : cp.checkContext with
    | error e => rw [hcc] at h; cases h
    | ok u2 =>
      rw [hcc] at h
      cases hs : ChroniclesProblem.getSignatureTemporalTask
          { cp with actions := cp.actions ++ [a] } (.prim a) none with
      | error e => rw [hs] at h; cases h
      | ok sig =>
        rw [hs] at h
        cases hc : exMapM
            (ChroniclesProblem.getCondition { cp with actions := cp.actions ++ [a] })
            a.conditions with
        | error e => rw [hc] at h; cases h
        | ok conds =>
          rw [hc] at h
          cases he : exMapM
              (ChroniclesProblem.getEffect { cp with actions := cp.actions ++ [a] })
              a.effects with
          | error e => rw [he] at h; cases h
          | ok effs =>
            rw [he] at h
            simp only [] at h
            have hlen := exMapM_length _ _ _ he
            by_cases hpos : effs.length > 0
            · rw [if_pos hpos] at h
              have hmk : minDurationEps a.interval none =
                  .ok (.temporal a.interval.stop (tpAdd a.interval.start htnEpsilon)
                    .rge none none) := by
                unfold minDurationEps minDuration factoryMake
                simp [hts, hte, tpAdd]
              rw [hmk] at h
              cases h
              refine ⟨sig, conds, effs, ?_, hlen⟩
              have hne : a.effects ≠ [] := by
                intro hnil
                rw [hnil, List.length_nil] at hlen
                omega
              rw [if_neg hne]
              simp [LcpChronicleProblem.push, getConstraint, CRel.str]
            · rw [if_neg hpos] at h
              cases h
              refine ⟨sig, conds, effs, ?_, hlen⟩
              have hnil : a.effects = [] := by
                have h0 : effs.length = 0 := by omega
                rw [h0] at hlen
                exact List.length_eq_zero.mp hlen.symm
              rw [if_pos hnil]
              simp [LcpChronicleProblem.push]

def c7sv : HtnStateVariable := ⟨⟨.sv, "occupied"⟩, [], htnBoolean⟩
def c7a : HtnPrimitiveTask :=
  { symbol := ⟨.prim, "act"⟩, params := [], interval := c4interval,
    effects := [⟨c7sv, htnTrue, c4interval⟩] }
def c7cp : ChroniclesProblem :=
  { symbolTableCreated := true, contextCreated := true,
    problem := { stCreated := true, ctxCreated := true },
    symbols := [⟨.prim, "act"⟩, ⟨.sv, "occupied"⟩] }
def c7after : ChroniclesProblem := ((c7cp.addAction c7a).toOption).getD c7cp

/-- Witness: the minimum-duration injection at a concrete action with
one effect. -/
theorem c7_min_duration_injection_witness :
    ∃ sig conds effs,
      c7after.problem.calls = c7cp.problem.calls ++
        [.addAction sig
          (c7a.constraints.map getConstraint ++
            (if c7a.effects = [] then [] else
              [[getTimepoint c7a.interval.stop none, ">=",
                getTimepoint (tpAdd c7a.interval.start htnEpsilon) none]]))
          conds effs] ∧
      effs.length = c7a.effects.length :=
  c7_min_duration_injection c7cp c7a c7after (by decide) rfl rfl rfl


theorem find?_append_none {α : Type} (p : α → Bool) (l1 l2 : List α)
    (h : l1.find? p = none) : (l1 ++ l2).find? p = l2.find? p := by
  induction l1 with
  | nil => rfl
  | cons x xs ih =>
    cases hp : p x with
    | true => simp [List.find?_cons, hp] at h
    | false =>
      simp only [List.find?_cons, hp] at h
      simp only [List.cons_append, List.find?_cons, hp]
      exact ih h

theorem find?_append_some {α : Type} (p : α → Bool) (l1 l2 : List α) (x : α)
    (h : l1.find? p = some x) : (l1 ++ l2).find? p = some x := by
  induction l1 with
  | nil => cases h
  | cons y ys ih =>
    cases hp : p y with
    | true =>
      simp only [List.find?_cons, hp] at h
      simp only [List.cons_append, List.find?_cons, hp]
      exact h
    | false =>
      simp only [List.find?_cons, hp] at h
      simp only [List.cons_append, List.find?_cons, hp]
      exact ih h

theorem PyHeap.get_alloc_old (h : PyHeap) (v : PyObjVal) (r : Nat)
    (hr : r < h.nextRef) : (h.alloc v).1.get r = h.get r := by
  unfold PyHeap.get PyHeap.alloc
  simp only
  cases hf : h.objs.find? (fun p => p.1 == r) with
  | some pr => rw [find?_append_some _ _ _ _ hf]
  | none =>
    rw [find?_append_none _ _ _ hf]
    have hne : (h.nextRef == r) = false := by
      simp only [beq_eq_false_iff_ne]
      omega
    simp [List.find?_cons, hne]

theorem PyHeap.get_alloc_new (h : PyHeap) (v : PyObjVal) (hwf : h.wf) :
    (h.alloc v).1.get h.nextRef = some v := by
  unfold PyHeap.get PyHeap.alloc
  simp only
  have hnone : h.objs.find? (fun p => p.1 == h.nextRef) = none := by
    rw [List.find?_eq_none]
    intro p hp
    have := hwf p hp
    simp only [Bool.not_eq_true, beq_eq_false_iff_ne]
    omega
  rw [find?_append_none _ _ _ hnone]
  simp [List.find?_cons]

theorem PyHeap.wf_alloc (h : PyHeap) (v : PyObjVal) (hwf : h.wf) :
    (h.alloc v).1.wf := by
  intro p hp
  simp only [PyHeap.alloc, List.mem_append, List.mem_singleton] at hp
  rcases hp with hp | hp
  · have := hwf p hp
    simp only [PyHeap.alloc]
    omega
  · subst hp
    simp only [PyHeap.alloc]
    omega

theorem findVal_setList_ne (l : List (Nat × PyObjVal)) (r r2 : Nat) (v : PyObjVal)
    (hne : r2 ≠ r) :
    (l.map (fun p => if p.1 == r then (r, v) else p)).find? (fun p => p.1 == r2) =
      l.find? (fun p => p.1 == r2) := by
  induction l with
  | nil => rfl
  | cons x xs ih =>
    by_cases hx : x.1 = r
    · have hx1 : (x.1 == r) = true := by simp [hx]
      have hx2 : (x.1 == r2) = false := by
        simp only [beq_eq_false_iff_ne]
        omega
      have hr2 : (r == r2) = false := by
        simp only [beq_eq_false_iff_ne]
        omega
      simp only [List.map_cons, List.find?_cons]
      rw [if_pos hx1]
      simp only [List.find?_cons, hr2, hx2]
      exact ih
    · have hx1 : (x.1 == r) = false := by simp [hx]
      simp only [List.map_cons, List.find?_cons]
      rw [if_neg (by simp [hx1])]
      cases hx2 : (x.1 == r2) with
      | true => rfl
      | false => exact ih

theorem findVal_setList_self (l : List (Nat × PyObjVal)) (r : Nat) (v : PyObjVal)
    (halive : (l.find? (fun p => p.1 == r)).isSome = true) :
    (l.map (fun p => if p.1 == r then (r, v) else p)).find? (fun p => p.1 == r) =
      some (r, v) := by
  induction l with
  | nil => simp at halive
  | cons x xs ih =>
    by_cases hx : x.1 = r
    · have hx1 : (x.1 == r) = true := by simp [hx]
      simp only [List.map_cons, List.find?_cons]
      rw [if_pos hx1]
      simp [List.find?_cons]
    · have hx1 : (x.1 == r) = false := by simp [hx]
      simp only [List.find?_cons, hx1] at halive
      simp only [List.map_cons, List.find?_cons]
      rw [if_neg (by simp [hx1])]
      simp only [List.find?_cons, hx1]
      exact ih halive

theorem PyHeap.get_setObj_ne (h : PyHeap) (r r2 : Nat) (v : PyObjVal)
    (hne : r2 ≠ r) : (h.setObj r v).get r2 = h.get r2 := by
  unfold PyHeap.get PyHeap.setObj
  simp only
  rw [findVal_setList_ne h.objs r r2 v hne]

theorem PyHeap.get_setObj_self (h : PyHeap) (r : Nat) (v : PyObjVal)
    (halive : (h.get r).isSome = true) : (h.setObj r v).get r = some v := by
  unfold PyHeap.get at halive
  have halive2 : (h.objs.find? (fun p => p.1 == r)).isSome = true := by
    cases hf : h.objs.find? (fun p => p.1 == r) with
    | none => rw [hf] at halive; simp at halive
    | some pr => rfl
  unfold PyHeap.get PyHeap.setObj
  simp only
  rw [findVal_setList_self h.objs r v halive2]
  rfl

theorem PyHeap.wf_setObj (h : PyHeap) (r : Nat) (v : PyObjVal) (hwf : h.wf) :
    (h.setObj r v).wf := by
  intro p hp
  simp only [PyHeap.setObj, List.mem_map] at hp
  obtain ⟨q, hq, hpq⟩ := hp
  have hql := hwf q hq
  by_cases hqr : q.1 = r
  · have hq1 : (q.1 == r) = true := by simp [hqr]
    rw [if_pos hq1] at hpq
    subst hpq
    simp only [PyHeap.setObj]
    omega
  · have hq1 : (q.1 == r) = false := by simp [hqr]
    rw [if_neg (by simp [hq1])] at hpq
    subst hpq
    exact hql

theorem PyHeap.get_isSome_lt (h : PyHeap) (r : Nat) (hwf : h.wf)
    (hs : (h.get r).isSome = true) : r < h.nextRef := by
  unfold PyHeap.get at hs
  cases hf : h.objs.find? (fun p => p.1 == r) with
  | none => rw [hf] at hs; simp at hs
  | some pr =>
    have hmem := List.mem_of_find?_eq_some hf
    have hpred := List.find?_some hf
    have hr : pr.1 = r := by simpa using hpred
    have := hwf pr hmem
    omega

theorem lookupAttr_setAttr_self (attrs : List (String × Nat)) (n : String)
    (r : Nat) : lookupAttr (setAttr attrs n r) n = some r := by
  unfold setAttr
  by_cases hany : attrs.any (fun p => p.1 == n) = true
  · rw [if_pos hany]
    unfold lookupAttr
    induction attrs with
    | nil => simp at hany
    | cons x xs ih =>
      by_cases hx : x.1 = n
      · have hx1 : (x.1 == n) = true := by simp [hx]
        simp only [List.map_cons, List.find?_cons]
        rw [if_pos hx1]
        simp [List.find?_cons]
      · have hx1 : (x.1 == n) = false := by simp [hx]
        simp only [List.any_cons, hx1, Bool.false_or] at hany
        simp only [List.map_cons, List.find?_cons]
        rw [if_neg (by simp [hx1])]
        simp only [hx1]
        exact ih hany
  · rw [if_neg hany]
    unfold lookupAttr
    have hnone : attrs.find? (fun p => p.1 == n) = none := by
      rw [List.find?_eq_none]
      intro p hp
      by_cases hpn : (p.1 == n) = true
      · exact absurd (List.any_eq_true.mpr ⟨p, hp, hpn⟩) hany
      · simpa using hpn
    rw [find?_append_none _ _ _ hnone]
    simp [List.find?_cons]

theorem lookupAttr_setAttr_ne (attrs : List (String × Nat)) (n m : String)
    (r : Nat) (hne : m ≠ n) :
    lookupAttr (setAttr attrs n r) m = lookupAttr attrs m := by
  unfold setAttr
  by_cases hany : attrs.any (fun p => p.1 == n) = true
  · rw [if_pos hany]
    unfold lookupAttr
    clear hany
    induction attrs with
    | nil => rfl
    | cons x xs ih =>
      by_cases hx : x.1 = n
      · have hx1 : (x.1 == n) = true := by simp [hx]
        have hx2 : (x.1 == m) = false := by
          simp only [beq_eq_false_iff_ne]
          rw [hx]
          exact fun hh => hne hh.symm
        have hn2 : (n == m) = false := by
          simp only [beq_eq_false_iff_ne]
          exact fun hh => hne hh.symm
        simp only [List.map_cons, List.find?_cons]
        rw [if_pos hx1]
        simp only [List.find?_cons, hn2, hx2]
        exact ih
      · have hx1 : (x.1 == n) = false := by simp [hx]
        simp only [List.map_cons, List.find?_cons]
        rw [if_neg (by simp [hx1])]
        cases hx2 : (x.1 == m) with
        | true => rfl
        | false => exact ih
  · rw [if_neg hany]
    unfold lookupAttr
    cases hf : attrs.find? (fun p => p.1 == m) with
    | some pr => rw [find?_append_some _ _ _ _ hf]
    | none =>
      rw [find?_append_none _ _ _ hf]
      have hn2 : (n == m) = false := by
        simp only [beq_eq_false_iff_ne]
        exact fun hh => hne hh.symm
      simp [List.find?_cons, hn2]

theorem lookupAttr_mem (attrs : List (String × Nat)) (n : String) (r : Nat)
    (h : lookupAttr attrs n = some r) : (n, r) ∈ attrs := by
  unfold lookupAttr at h
  cases hf : attrs.find? (fun p => p.1 == n) with
  | none => rw [hf] at h; cases h
  | some pr =>
    rw [hf] at h
    have hmem := List.mem_of_find?_eq_some hf
    have hpred := List.find?_some hf
    have h1 : pr.1 = n := by simpa using hpred
    have h2 : pr.2 = r := by simpa using h
    have : pr = (n, r) := by
      cases pr
      simp only at h1 h2
      rw [h1, h2]
    rw [this] at hmem
    exact hmem

theorem attrVal_heap_ext (h1 h2 : PyHeap) (e : PyEntityObj) (n : String)
    (hext : ∀ p ∈ e.attrs, h2.get p.2 = h1.get p.2) :
    attrVal h2 e n = attrVal h1 e n := by
  unfold attrVal
  cases hl : lookupAttr e.attrs n with
  | none => rfl
  | some r => exact hext (n, r) (lookupAttr_mem e.attrs n r hl)

theorem attrVal_cons (h : PyHeap) (m : String) (r : Nat)
    (rest : List (String × Nat)) (n : String) :
    attrVal h ⟨(m, r) :: rest⟩ n =
      if (m == n) = true then h.get r else attrVal h ⟨rest⟩ n := by
  unfold attrVal lookupAttr
  simp only [List.find?_cons]
  cases hmn : (m == n) with
  | true => simp
  | false => simp

theorem deepcopy_facts (attrs : List (String × Nat)) (h : PyHeap)
    (hwf : h.wf) (hal : ∀ p ∈ attrs, ((h.get p.2).isSome = true)) :
    (deepcopyAttrs h attrs).1.wf ∧
    h.nextRef ≤ (deepcopyAttrs h attrs).1.nextRef ∧
    (∀ r, r < h.nextRef → (deepcopyAttrs h attrs).1.get r = h.get r) ∧
    (deepcopyAttrs h attrs).2.map Prod.fst = attrs.map Prod.fst ∧
    (∀ p ∈ (deepcopyAttrs h attrs).2,
      h.nextRef ≤ p.2 ∧ p.2 < (deepcopyAttrs h attrs).1.nextRef ∧
      (((deepcopyAttrs h attrs).1.get p.2).isSome = true)) ∧
    List.Pairwise (fun p q => p.2 < q.2) (deepcopyAttrs h attrs).2 ∧
    (∀ n, attrVal (deepcopyAttrs h attrs).1 ⟨(deepcopyAttrs h attrs).2⟩ n =
      attrVal h ⟨attrs⟩ n) := by
  induction attrs generalizing h with
  | nil =>
    exact ⟨hwf, le_refl _, fun r hr => rfl, rfl, by simp [deepcopyAttrs],
      by simp [deepcopyAttrs], fun n => rfl⟩
  | cons x rest ih =>
    obtain ⟨m, r⟩ := x
    have hr_alive := hal (m, r) (by simp)
    have hrlt : r < h.nextRef := PyHeap.get_isSome_lt h r hwf hr_alive
    have h1wf : (h.alloc ((h.get r).getD (.prim (.pint 0)))).1.wf :=
      PyHeap.wf_alloc h _ hwf
    have hal1 : ∀ p ∈ rest,
        (((h.alloc ((h.get r).getD (.prim (.pint 0)))).1.get p.2).isSome = true) := by
      intro p hp
      have hps := hal p (List.mem_cons_of_mem _ hp)
      have hlt := PyHeap.get_isSome_lt h p.2 hwf hps
      rw [PyHeap.get_alloc_old h _ p.2 hlt]
      exact hps
    obtain ⟨iwf, inext, iget, inames, irefs, ipair, ival⟩ :=
      ih (h.alloc ((h.get r).getD (.prim (.pint 0)))).1 h1wf hal1
    have h1next : (h.alloc ((h.get r).getD (.prim (.pint 0)))).1.nextRef =
      h.nextRef + 1 := rfl
    have hstep : deepcopyAttrs h ((m, r) :: rest) =
        ((deepcopyAttrs (h.alloc ((h.get r).getD (.prim (.pint 0)))).1 rest).1,
         (m, h.nextRef) ::
           (deepcopyAttrs (h.alloc ((h.get r).getD (.prim (.pint 0)))).1 rest).2) :=
      rfl
    rw [hstep]
    refine ⟨iwf, by dsimp only; omega, ?_, by simpa using inames, ?_, ?_, ?_⟩
    · intro r2 hr2
      rw [iget r2 (by omega)]
      exact PyHeap.get_alloc_old h _ r2 hr2
    · intro p hp
      rcases List.mem_cons.mp hp with hp1 | hp1
      · subst hp1
        refine ⟨le_refl _, by dsimp only; omega, ?_⟩
        have hg : (deepcopyAttrs (h.alloc ((h.get r).getD (.prim (.pint 0)))).1
            rest).1.get h.nextRef =
            some ((h.get r).getD (.prim (.pint 0))) := by
          rw [iget h.nextRef (by omega)]
          exact PyHeap.get_alloc_new h _ hwf
        rw [hg]
        rfl
      · obtain ⟨ha, hb, hc⟩ := irefs p hp1
        refine ⟨by omega, ?_, hc⟩
        dsimp only
        omega
    · refine List.Pairwise.cons ?_ ipair
      intro q hq
      have := (irefs q hq).1
      simp only
      omega
    · intro n
      rw [attrVal_cons, attrVal_cons]
      cases hmn : (m == n) with
      | true =>
        simp only [hmn, if_pos]
        rw [iget h.nextRef (by omega)]
        rw [PyHeap.get_alloc_new h _ hwf]
        obtain ⟨vv, hvv⟩ := Option.isSome_iff_exists.mp hr_alive
        rw [hvv]
        rfl
      | false =>
        simp only [hmn, Bool.false_eq_true, if_false]
        rw [ival n]
        refine attrVal_heap_ext h _ ⟨rest⟩ n ?_
        intro p hp
        have hps := hal p (List.mem_cons_of_mem _ hp)
        exact PyHeap.get_alloc_old h _ p.2 (PyHeap.get_isSome_lt h p.2 hwf hps)

theorem setAttr_mem (attrs : List (String × Nat)) (n : String) (r : Nat) :
    ∀ p ∈ setAttr attrs n r, p ∈ attrs ∨ p = (n, r) := by
  unfold setAttr
  by_cases hany : attrs.any (fun p => p.1 == n) = true
  · rw [if_pos hany]
    intro p hp
    obtain ⟨q, hq, hfq⟩ := List.mem_map.mp hp
    by_cases hqn : (q.1 == n) = true
    · rw [if_pos hqn] at hfq
      exact Or.inr hfq.symm
    · rw [if_neg hqn] at hfq
      subst hfq
      exact Or.inl hq
  · rw [if_neg hany]
    intro p hp
    rcases List.mem_append.mp hp with hp | hp
    · exact Or.inl hp
    · exact Or.inr (List.mem_singleton.mp hp)

theorem setAttr_names (attrs : List (String × Nat)) (n : String) (r : Nat) :
    (setAttr attrs n r).map Prod.fst =
      if attrs.any (fun p => p.1 == n) = true then attrs.map Prod.fst
      else attrs.map Prod.fst ++ [n] := by
  unfold setAttr
  by_cases hany : attrs.any (fun p => p.1 == n) = true
  · rw [if_pos hany, if_pos hany, List.map_map]
    refine List.map_congr_left ?_
    intro q hq
    by_cases hqn : (q.1 == n) = true
    · simp only [Function.comp_apply]
      rw [if_pos hqn]
      have : q.1 = n := by simpa using hqn
      simp [this]
    · simp only [Function.comp_apply]
      rw [if_neg hqn]
  · rw [if_neg hany, if_neg hany]
    simp

theorem copyWith_step (h : PyHeap) (e : PyEntityObj) (n0 : String)
    (v0 : PyObjVal) :
    copyWith h e [(n0, v0)] =
      (((deepcopyAttrs h e.attrs).1.alloc v0).1,
       ⟨setAttr (deepcopyAttrs h e.attrs).2 n0
          (deepcopyAttrs h e.attrs).1.nextRef⟩) := rfl

theorem copyWith_facts (h : PyHeap) (e : PyEntityObj) (n0 : String)
    (v0 : PyObjVal) (hwf : h.wf)
    (he : ∀ p ∈ e.attrs, ((h.get p.2).isSome = true)) :
    (copyWith h e [(n0, v0)]).1.wf ∧
    h.nextRef ≤ (copyWith h e [(n0, v0)]).1.nextRef ∧
    (∀ r, r < h.nextRef → (copyWith h e [(n0, v0)]).1.get r = h.get r) ∧
    (∀ p ∈ (copyWith h e [(n0, v0)]).2.attrs,
      p.2 < (copyWith h e [(n0, v0)]).1.nextRef ∧
      (((copyWith h e [(n0, v0)]).1.get p.2).isSome = true)) ∧
    ((copyWith h e [(n0, v0)]).2.attrs.map Prod.fst =
      if (deepcopyAttrs h e.attrs).2.any (fun p => p.1 == n0) = true then
        e.attrs.map Prod.fst
      else e.attrs.map Prod.fst ++ [n0]) ∧
    (∀ m, attrVal (copyWith h e [(n0, v0)]).1 (copyWith h e [(n0, v0)]).2 m =
      if m = n0 then some v0 else attrVal h e m) := by
  obtain ⟨dwf, dnext, dget, dnames, drefs, dpair, dval⟩ :=
    deepcopy_facts e.attrs h hwf he
  rw [copyWith_step]
  have hanew : ((deepcopyAttrs h e.attrs).1.alloc v0).1.get
      (deepcopyAttrs h e.attrs).1.nextRef = some v0 :=
    PyHeap.get_alloc_new _ v0 dwf
  refine ⟨PyHeap.wf_alloc _ v0 dwf, ?_, ?_, ?_, ?_, ?_⟩
  · dsimp only
    have : ((deepcopyAttrs h e.attrs).1.alloc v0).1.nextRef =
        (deepcopyAttrs h e.attrs).1.nextRef + 1 := rfl
    omega
  · intro r hr
    dsimp only
    rw [PyHeap.get_alloc_old _ v0 r (by omega)]
    exact dget r hr
  · intro p hp
    dsimp only at hp
    rcases setAttr_mem _ _ _ p hp with hp1 | hp1
    · obtain ⟨hge, hlt, hsome⟩ := drefs p hp1
      constructor
      · dsimp only
        have : ((deepcopyAttrs h e.attrs).1.alloc v0).1.nextRef =
            (deepcopyAttrs h e.attrs).1.nextRef + 1 := rfl
        omega
      · rw [PyHeap.get_alloc_old _ v0 p.2 hlt]
        exact hsome
    · subst hp1
      constructor
      · dsimp only
        have : ((deepcopyAttrs h e.attrs).1.alloc v0).1.nextRef =
            (deepcopyAttrs h e.attrs).1.nextRef + 1 := rfl
        omega
      · rw [hanew]
        rfl
  · dsimp only
    rw [setAttr_names]
    by_cases hany : (deepcopyAttrs h e.attrs).2.any (fun p => p.1 == n0) = true
    · rw [if_pos hany, if_pos hany, dnames]
    · rw [if_neg hany, if_neg hany, dnames]
  · intro m
    by_cases hm : m = n0
    · subst hm
      rw [if_pos rfl]
      dsimp only [attrVal]
      rw [lookupAttr_setAttr_self]
      exact hanew
    · rw [if_neg hm]
      dsimp only [attrVal]
      rw [lookupAttr_setAttr_ne _ _ _ _ hm]
      have hval := dval m
      dsimp only [attrVal] at hval
      rw [← hval]
      cases hl : lookupAttr (deepcopyAttrs h e.attrs).2 m with
      | none => rfl
      | some r2 =>
        have hmem := lookupAttr_mem _ _ _ hl
        obtain ⟨hge, hlt, hsome⟩ := drefs (m, r2) hmem
        exact PyHeap.get_alloc_old _ v0 r2 hlt

/-- The value-level summary of one `extendStep`: what the extended
attribute denotes afterwards (`none` marks the `TypeError` shape
mismatch, which makes `copy_and_extend_with` raise instead). -/
def extendVal (old : Option PyObjVal) (v : PyObjVal) : Option PyObjVal :=
  match old, v with
  | some (.pset cur), .pset xs => some (.pset (pySetUnion cur xs))
  | some (.pset _), _ => none
  | some (.pdict cur), .pdict xs => some (.pdict (pyDictUpdate cur xs))
  | some (.pdict _), _ => none
  | some (.ptup cur), .ptup xs => some (.ptup (cur ++ xs))
  | some (.ptup _), _ => none
  | some (.plist cur), .plist xs => some (.plist (cur ++ xs))
  | some (.plist _), _ => none
  | _, _ => some v

theorem any_fst_eq (l : List (String × Nat)) (n : String) :
    l.any (fun p => p.1 == n) = (l.map Prod.fst).any (fun s => s == n) := by
  induction l with
  | nil => rfl
  | cons x xs ih => simp only [List.any_cons, List.map_cons, ih]

theorem lookupAttr_eq_none_iff (attrs : List (String × Nat)) (n : String) :
    lookupAttr attrs n = none ↔ attrs.any (fun p => p.1 == n) = false := by
  unfold lookupAttr
  constructor
  · intro hl
    cases hf : attrs.find? (fun p => p.1 == n) with
    | none =>
      rw [List.any_eq_false]
      intro p hp
      exact (List.find?_eq_none.mp hf) p hp
    | some pr => rw [hf] at hl; cases hl
  · intro hany
    have : attrs.find? (fun p => p.1 == n) = none := by
      rw [List.find?_eq_none]
      intro p hp
      exact (List.any_eq_false.mp hany) p hp
    rw [this]
    rfl

theorem lookupAttr_some_any (attrs : List (String × Nat)) (n : String)
    (r : Nat) (h : lookupAttr attrs n = some r) :
    attrs.any (fun p => p.1 == n) = true := by
  refine List.any_eq_true.mpr ⟨(n, r), lookupAttr_mem attrs n r h, ?_⟩
  simp

theorem copyAndExtendWith_eq (h : PyHeap) (e : PyEntityObj) (n0 : String)
    (v0 : PyObjVal) :
    copyAndExtendWith h e [(n0, v0)] =
      (match extendStep ((deepcopyAttrs h e.attrs).1,
          (deepcopyAttrs h e.attrs).2) (n0, v0) with
       | .error er => .error er
       | .ok st => .ok (st.1, (⟨st.2⟩ : PyEntityObj))) := by
  unfold copyAndExtendWith
  cases hstep : extendStep ((deepcopyAttrs h e.attrs).1,
      (deepcopyAttrs h e.attrs).2) (n0, v0) with
  | error er => simp [List.foldlM, hstep]
  | ok st => simp [List.foldlM, hstep]

theorem ok_pair_inj (a : PyHeap) (b : List (String × Nat)) (h2 : PyHeap)
    (e2 : PyEntityObj)
    (hok : (Except.ok (a, (⟨b⟩ : PyEntityObj)) :
      Except ConvError (PyHeap × PyEntityObj)) = .ok (h2, e2)) :
    a = h2 ∧ e2 = (⟨b⟩ : PyEntityObj) := by
  injection hok with hp
  exact ⟨congrArg Prod.fst hp, (congrArg Prod.snd hp).symm⟩

theorem copyAndExtendWith_facts (h : PyHeap) (e : PyEntityObj) (n0 : String)
    (v0 : PyObjVal) (hwf : h.wf)
    (he : ∀ p ∈ e.attrs, ((h.get p.2).isSome = true))
    (h2 : PyHeap) (e2 : PyEntityObj)
    (hok : copyAndExtendWith h e [(n0, v0)] = .ok (h2, e2)) :
    (∀ r, r < h.nextRef → h2.get r = h.get r) ∧
    (e2.attrs.map Prod.fst = e.attrs.map Prod.fst ∨
      e2.attrs.map Prod.fst = e.attrs.map Prod.fst ++ [n0]) ∧
    (∀ m, m ≠ n0 → attrVal h2 e2 m = attrVal h e m) ∧
    attrVal h2 e2 n0 = extendVal (attrVal h e n0) v0 := by
  obtain ⟨dwf, dnext, dget, dnames, drefs, dpair, dval⟩ :=
    deepcopy_facts e.attrs h hwf he
  rw [copyAndExtendWith_eq] at hok
  cases hl : lookupAttr (deepcopyAttrs h e.attrs).2 n0 with
  | none =>
    have hstep : extendStep ((deepcopyAttrs h e.attrs).1,
        (deepcopyAttrs h e.attrs).2) (n0, v0) =
        .ok (((deepcopyAttrs h e.attrs).1.alloc v0).1,
          setAttr (deepcopyAttrs h e.attrs).2 n0
            (deepcopyAttrs h e.attrs).1.nextRef) := by
      simp only [extendStep, hl]
      try rfl
    rw [hstep] at hok
    dsimp only at hok
    obtain ⟨hh2, hee2⟩ := ok_pair_inj _ _ _ _ hok
    subst hh2
    subst hee2
    have hlany := (lookupAttr_eq_none_iff _ _).mp hl
    have hcw := copyWith_facts h e n0 v0 hwf he
    refine ⟨?_, ?_, ?_, ?_⟩
    · intro r2 hr2
      exact hcw.2.2.1 r2 hr2
    · have hn := hcw.2.2.2.2.1
      rw [if_neg (by simp [hlany])] at hn
      exact Or.inr hn
    · intro m hm
      have hv := hcw.2.2.2.2.2 m
      rw [if_neg hm] at hv
      exact hv
    · have hany2 : e.attrs.any (fun p => p.1 == n0) = false := by
        rw [any_fst_eq, ← dnames, ← any_fst_eq]
        exact hlany
      have hnone : attrVal h e n0 = none := by
        dsimp only [attrVal]
        rw [(lookupAttr_eq_none_iff e.attrs n0).mpr hany2]
      rw [hnone]
      have hv := hcw.2.2.2.2.2 n0
      rw [if_pos rfl] at hv
      have hev : extendVal none v0 = some v0 := by cases v0 <;> rfl
      rw [hev]
      exact hv
  | some r =>
    have hmem := lookupAttr_mem _ _ _ hl
    obtain ⟨hge, hlt1, hsome⟩ := drefs (n0, r) hmem
    dsimp only at hge hlt1 hsome
    have hany : (deepcopyAttrs h e.attrs).2.any (fun p => p.1 == n0) = true :=
      lookupAttr_some_any _ _ _ hl
    have hnodup : ((deepcopyAttrs h e.attrs).2.map Prod.snd).Nodup :=
      (List.pairwise_map.mpr dpair).imp (fun hab => Nat.ne_of_lt hab)
    cases hg : (deepcopyAttrs h e.attrs).1.get r with
    | none =>
      rw [hg] at hsome
      simp at hsome
    | some ov =>
      have hov : attrVal h e n0 = some ov := by
        have hdv := dval n0
        dsimp only [attrVal] at hdv
        rw [hl] at hdv
        simp only [] at hdv
        rw [hg] at hdv
        exact hdv.symm
      cases ov with
      | pset cur =>
        cases v0 with
        | pset xs =>
          have hstep : extendStep ((deepcopyAttrs h e.attrs).1,
              (deepcopyAttrs h e.attrs).2) (n0, PyObjVal.pset xs) =
              .ok ((deepcopyAttrs h e.attrs).1.setObj r
                  (.pset (pySetUnion cur xs)),
                (deepcopyAttrs h e.attrs).2) := by
            simp only [extendStep, hl, hg]
          rw [hstep] at hok
          dsimp only at hok
          obtain ⟨hh2, hee2⟩ := ok_pair_inj _ _ _ _ hok
          subst hh2
          subst hee2
          refine ⟨?_, Or.inl dnames, ?_, ?_⟩
          · intro r2 hr2
            have hner : r2 ≠ r := by omega
            rw [PyHeap.get_setObj_ne _ _ _ _ hner]
            exact dget r2 hr2
          · intro m hm
            have hml : attrVal ((deepcopyAttrs h e.attrs).1.setObj r
                  (.pset (pySetUnion cur xs)))
                ⟨(deepcopyAttrs h e.attrs).2⟩ m =
                attrVal (deepcopyAttrs h e.attrs).1
                  ⟨(deepcopyAttrs h e.attrs).2⟩ m := by
              dsimp only [attrVal]
              cases hlm : lookupAttr (deepcopyAttrs h e.attrs).2 m with
              | none => rfl
              | some r2 =>
                have hmem2 := lookupAttr_mem _ _ _ hlm
                have hner : r2 ≠ r := by
                  intro hc
                  have hxy := List.inj_on_of_nodup_map hnodup hmem2 hmem hc
                  exact hm (congrArg Prod.fst hxy)
                exact PyHeap.get_setObj_ne _ _ _ _ hner
            rw [hml]
            exact dval m
          · have halive : (((deepcopyAttrs h e.attrs).1.get r).isSome = true) := by
              rw [hg]
              rfl
            rw [hov]
            have hval2 : attrVal ((deepcopyAttrs h e.attrs).1.setObj r
                  (.pset (pySetUnion cur xs)))
                ⟨(deepcopyAttrs h e.attrs).2⟩ n0 =
                some (.pset (pySetUnion cur xs)) := by
              dsimp only [attrVal]
              rw [hl]
              exact PyHeap.get_setObj_self _ _ _ halive
            exact hval2
        | pdict xs =>
          simp only [extendStep, hl, hg] at hok
          exact Except.noConfusion hok
        | ptup xs =>
          simp only [extendStep, hl, hg] at hok
          exact Except.noConfusion hok
        | plist xs =>
          simp only [extendStep, hl, hg] at hok
          exact Except.noConfusion hok
        | prim pv =>
          simp only [extendStep, hl, hg] at hok
          exact Except.noConfusion hok
      | pdict cur =>
        cases v0 with
        | pset xs =>
          simp only [extendStep, hl, hg] at hok
          exact Except.noConfusion hok
        | pdict xs =>
          have hstep : extendStep ((deepcopyAttrs h e.attrs).1,
              (deepcopyAttrs h e.attrs).2) (n0, PyObjVal.pdict xs) =
              .ok ((deepcopyAttrs h e.attrs).1.setObj r
                  (.pdict (pyDictUpdate cur xs)),
                (deepcopyAttrs h e.attrs).2) := by
            simp only [extendStep, hl, hg]
          rw [hstep] at hok
          dsimp only at hok
          obtain ⟨hh2, hee2⟩ := ok_pair_inj _ _ _ _ hok
          subst hh2
          subst hee2
          refine ⟨?_, Or.inl dnames, ?_, ?_⟩
          · intro r2 hr2
            have hner : r2 ≠ r := by omega
            rw [PyHeap.get_setObj_ne _ _ _ _ hner]
            exact dget r2 hr2
          · intro m hm
            have hml : attrVal ((deepcopyAttrs h e.attrs).1.setObj r
                  (.pdict (pyDictUpdate cur xs)))
                ⟨(deepcopyAttrs h e.attrs).2⟩ m =
                attrVal (deepcopyAttrs h e.attrs).1
                  ⟨(deepcopyAttrs h e.attrs).2⟩ m := by
              dsimp only [attrVal]
              cases hlm : lookupAttr (deepcopyAttrs h e.attrs).2 m with
              | none => rfl
              | some r2 =>
                have hmem2 := lookupAttr_mem _ _ _ hlm
                have hner : r2 ≠ r := by
                  intro hc
                  have hxy := List.inj_on_of_nodup_map hnodup hmem2 hmem hc
                  exact hm (congrArg Prod.fst hxy)
                exact PyHeap.get_setObj_ne _ _ _ _ hner
            rw [hml]
            exact dval m
          · have halive : (((deepcopyAttrs h e.attrs).1.get r).isSome = true) := by
              rw [hg]
              rfl
            rw [hov]
            have hval2 : attrVal ((deepcopyAttrs h e.attrs).1.setObj r
                  (.pdict (pyDictUpdate cur xs)))
                ⟨(deepcopyAttrs h e.attrs).2⟩ n0 =
                some (.pdict (pyDictUpdate cur xs)) := by
              dsimp only [attrVal]
              rw [hl]
              exact PyHeap.get_setObj_self _ _ _ halive
            exact hval2
        | ptup xs =>
          simp only [extendStep, hl, hg] at hok
          exact Except.noConfusion hok
        | plist xs =>
          simp only [extendStep, hl, hg] at hok
          exact Except.noConfusion hok
        | prim pv =>
          simp only [extendStep, hl, hg] at hok
          exact Except.noConfusion hok
      | ptup cur =>
        cases v0 with
        | pset xs =>
          simp only [extendStep, hl, hg] at hok
          exact Except.noConfusion hok
        | pdict xs =>
          simp only [extendStep, hl, hg] at hok
          exact Except.noConfusion hok
        | ptup xs =>
          have hstep : extendStep ((deepcopyAttrs h e.attrs).1,
              (deepcopyAttrs h e.attrs).2) (n0, PyObjVal.ptup xs) =
              .ok (((deepcopyAttrs h e.attrs).1.alloc (.ptup (cur ++ xs))).1,
                setAttr (deepcopyAttrs h e.attrs).2 n0
                  (deepcopyAttrs h e.attrs).1.nextRef) := by
            simp only [extendStep, hl, hg]
            try rfl
          rw [hstep] at hok
          dsimp only at hok
          obtain ⟨hh2, hee2⟩ := ok_pair_inj _ _ _ _ hok
          subst hh2
          subst hee2
          have hcw := copyWith_facts h e n0 (.ptup (cur ++ xs)) hwf he
          refine ⟨?_, ?_, ?_, ?_⟩
          · intro r2 hr2
            exact hcw.2.2.1 r2 hr2
          · have hn := hcw.2.2.2.2.1
            rw [if_pos hany] at hn
            exact Or.inl hn
          · intro m hm
            have hv := hcw.2.2.2.2.2 m
            rw [if_neg hm] at hv
            exact hv
          · rw [hov]
            have hv := hcw.2.2.2.2.2 n0
            rw [if_pos rfl] at hv
            exact hv
        | plist xs =>
          simp only [extendStep, hl, hg] at hok
          exact Except.noConfusion hok
        | prim pv =>
          simp only [extendStep, hl, hg] at hok
          exact Except.noConfusion hok
      | plist cur =>
        cases v0 with
        | pset xs =>
          simp only [extendStep, hl, hg] at hok
          exact Except.noConfusion hok
        | pdict xs =>
          simp only [extendStep, hl, hg] at hok
          exact Except.noConfusion hok
        | ptup xs =>
          simp only [extendStep, hl, hg] at hok
          exact Except.noConfusion hok
        | plist xs =>
          have hstep : extendStep ((deepcopyAttrs h e.attrs).1,
              (deepcopyAttrs h e.attrs).2) (n0, PyObjVal.plist xs) =
              .ok (((deepcopyAttrs h e.attrs).1.alloc (.plist (cur ++ xs))).1,
                setAttr (deepcopyAttrs h e.attrs).2 n0
                  (deepcopyAttrs h e.attrs).1.nextRef) := by
            simp only [extendStep, hl, hg]
            try rfl
          rw [hstep] at hok
          dsimp only at hok
          obtain ⟨hh2, hee2⟩ := ok_pair_inj _ _ _ _ hok
          subst hh2
          subst hee2
          have hcw := copyWith_facts h e n0 (.plist (cur ++ xs)) hwf he
          refine ⟨?_, ?_, ?_, ?_⟩
          · intro r2 hr2
            exact hcw.2.2.1 r2 hr2
          · have hn := hcw.2.2.2.2.1
            rw [if_pos hany] at hn
            exact Or.inl hn
          · intro m hm
            have hv := hcw.2.2.2.2.2 m
            rw [if_neg hm] at hv
            exact hv
          · rw [hov]
            have hv := hcw.2.2.2.2.2 n0
            rw [if_pos rfl] at hv
            exact hv
        | prim pv =>
          simp only [extendStep, hl, hg] at hok
          exact Except.noConfusion hok
      | prim pv =>
        have hstep : extendStep ((deepcopyAttrs h e.attrs).1,
            (deepcopyAttrs h e.attrs).2) (n0, v0) =
            .ok (((deepcopyAttrs h e.attrs).1.alloc v0).1,
              setAttr (deepcopyAttrs h e.attrs).2 n0
                (deepcopyAttrs h e.attrs).1.nextRef) := by
          simp only [extendStep, hl, hg]
          try rfl
        rw [hstep] at hok
        dsimp only at hok
        obtain ⟨hh2, hee2⟩ := ok_pair_inj _ _ _ _ hok
        subst hh2
        subst hee2
        have hcw := copyWith_facts h e n0 v0 hwf he
        refine ⟨?_, ?_, ?_, ?_⟩
        · intro r2 hr2
          exact hcw.2.2.1 r2 hr2
        · have hn := hcw.2.2.2.2.1
          rw [if_pos hany] at hn
          exact Or.inl hn
        · intro m hm
          have hv := hcw.2.2.2.2.2 m
          rw [if_neg hm] at hv
          exact hv
        · rw [hov]
          have hv := hcw.2.2.2.2.2 n0
          rw [if_pos rfl] at hv
          exact hv

def c8h : PyHeap :=
  { objs := [(0, .pset [.pint 1]), (1, .prim (.pint 7))], nextRef := 2 }

def c8e : PyEntityObj := ⟨[("a", 0), ("c", 1)]⟩

/-- C8: `copy_with` rebuilds the entity from a deep copy, so running
`e.copy_with(a=x)` twice yields `==`-equal entities and the original
entity still denotes all its old values in the extended heap, after
`copy_and_extend_with` as well; a successful single extension binding
unions into a set field, updates a mapping field, concatenates onto a
tuple or list field, overrides a plain or absent field (per
`extendVal`), and every field other than the extended one keeps its
value in the copy. -/
theorem c8_entity_update
    (h : PyHeap) (e : PyEntityObj) (n0 : String) (v0 : PyObjVal)
    (hwf : h.wf) (he : ∀ p ∈ e.attrs, ((h.get p.2).isSome = true)) :
    entityValEq
      (copyWith (copyWith h e [(n0, v0)]).1 e [(n0, v0)]).1
      (copyWith (copyWith h e [(n0, v0)]).1 e [(n0, v0)]).2
      (copyWith h e [(n0, v0)]).1 (copyWith h e [(n0, v0)]).2 ∧
    entityValEq (copyWith h e [(n0, v0)]).1 e h e ∧
    (∀ h2 e2, copyAndExtendWith h e [(n0, v0)] = .ok (h2, e2) →
      entityValEq h2 e h e ∧
      (e2.attrs.map Prod.fst = e.attrs.map Prod.fst ∨
        e2.attrs.map Prod.fst = e.attrs.map Prod.fst ++ [n0]) ∧
      (∀ m, m ≠ n0 → attrVal h2 e2 m = attrVal h e m) ∧
      attrVal h2 e2 n0 = extendVal (attrVal h e n0) v0) := by
  obtain ⟨cwf, cnext, cget, crefs, cnames, cval⟩ := copyWith_facts h e n0 v0 hwf he
  have hext0 : ∀ p ∈ e.attrs, (copyWith h e [(n0, v0)]).1.get p.2 = h.get p.2 := by
    intro p hp
    exact cget p.2 (PyHeap.get_isSome_lt h p.2 hwf (he p hp))
  have hB : entityValEq (copyWith h e [(n0, v0)]).1 e h e :=
    ⟨rfl, fun n => attrVal_heap_ext h (copyWith h e [(n0, v0)]).1 e n hext0⟩
  have he1 : ∀ p ∈ e.attrs,
      (((copyWith h e [(n0, v0)]).1.get p.2).isSome = true) := by
    intro p hp
    rw [hext0 p hp]
    exact he p hp
  obtain ⟨cwf2, cnext2, cget2, crefs2, cnames2, cval2⟩ :=
    copyWith_facts (copyWith h e [(n0, v0)]).1 e n0 v0 cwf he1
  refine ⟨⟨?_, ?_⟩, hB, ?_⟩
  · rw [cnames2, cnames]
    have hc1 : (deepcopyAttrs h e.attrs).2.any (fun p => p.1 == n0) =
        e.attrs.any (fun p => p.1 == n0) := by
      rw [any_fst_eq, (deepcopy_facts e.attrs h hwf he).2.2.2.1, ← any_fst_eq]
    have hc2 : (deepcopyAttrs (copyWith h e [(n0, v0)]).1 e.attrs).2.any
        (fun p => p.1 == n0) = e.attrs.any (fun p => p.1 == n0) := by
      rw [any_fst_eq,
        (deepcopy_facts e.attrs (copyWith h e [(n0, v0)]).1 cwf he1).2.2.2.1,
        ← any_fst_eq]
    rw [hc1, hc2]
  · intro n
    rw [cval2 n, cval n]
    by_cases hn : n = n0
    · rw [if_pos hn, if_pos hn]
    · rw [if_neg hn, if_neg hn]
      exact hB.2 n
  · intro h2 e2 hok
    obtain ⟨f1, f2, f3, f4⟩ :=
      copyAndExtendWith_facts h e n0 v0 hwf he h2 e2 hok
    refine ⟨⟨rfl, fun n => attrVal_heap_ext h h2 e n ?_⟩, f2, f3, f4⟩
    intro p hp
    exact f1 p.2 (PyHeap.get_isSome_lt h p.2 hwf (he p hp))

theorem c8_entity_update_witness :
    entityValEq
      (copyWith (copyWith c8h c8e [("a", .pset [.pint 2])]).1 c8e
        [("a", .pset [.pint 2])]).1
      (copyWith (copyWith c8h c8e [("a", .pset [.pint 2])]).1 c8e
        [("a", .pset [.pint 2])]).2
      (copyWith c8h c8e [("a", .pset [.pint 2])]).1
      (copyWith c8h c8e [("a", .pset [.pint 2])]).2 ∧
    entityValEq (copyWith c8h c8e [("a", .pset [.pint 2])]).1 c8e c8h c8e ∧
    (∀ h2 e2,
      copyAndExtendWith c8h c8e [("a", .pset [.pint 2])] = .ok (h2, e2) →
      entityValEq h2 c8e c8h c8e ∧
      (e2.attrs.map Prod.fst = c8e.attrs.map Prod.fst ∨
        e2.attrs.map Prod.fst = c8e.attrs.map Prod.fst ++ ["a"]) ∧
      (∀ m, m ≠ "a" → attrVal h2 e2 m = attrVal c8h c8e m) ∧
      attrVal h2 e2 "a" = extendVal (attrVal c8h c8e "a") (.pset [.pint 2])) :=
  c8_entity_update c8h c8e "a" (.pset [.pint 2])
    (by unfold PyHeap.wf; decide)
    (by decide)
